import Mathlib

/-!
Verification of `data_validation/validate_reagent_resources.py` from the
ibex_imaging_knowledge_base_utilities repository.

The Python script is shallowly embedded below.  The reagent resources table
(`pd.read_csv(..., dtype=str, keep_default_na=False)`) is modelled as a list
of string-valued records over the columns that the script manipulates (the
data-model columns of the specification); the file system that the script
probes (`pathlib.Path.is_file`, `open().read()`, `md5sum`, `rglob`, `os.walk`)
is modelled as an explicit oracle structure.  Python string helpers
(`str.split`, `str.strip`, substring containment) are re-implemented
structurally over `List Char` so that every definition evaluates inside the
Lean kernel.  Diagnostics that the script prints to stderr are modelled as a
tagged list of `Diag` values, and the two statements of the script that raise
uncaught Python exceptions are modelled with `Except.error`.
-/

/- ## Python string primitives -/

/-- `str.split(sep)` for a single-character separator: `splitOnChar sep l`
splits `l` at every occurrence of `sep`.  Like Python, splitting the empty
string yields `[[]]` and separators are not dropped silently. -/
def splitOnChar (sep : Char) : List Char → List (List Char)
  | [] => [[]]
  | c :: rest =>
    let r := splitOnChar sep rest
    if c = sep then [] :: r
    else
      match r with
      | [] => [[c]]
      | h :: t => (c :: h) :: t

/-- Whitespace recognized by `str.strip()` (ASCII subset). -/
def isWsChar (c : Char) : Bool :=
  c = ' ' || c = '\t' || c = '\n' || c = '\r'

/-- `str.strip()` on a character list. -/
def trimChars (l : List Char) : List Char :=
  ((l.dropWhile isWsChar).reverse.dropWhile isWsChar).reverse

/-- `s.split(sep)` for a one-character separator. -/
def pySplit (sep : Char) (s : String) : List String :=
  (splitOnChar sep s.data).map (fun l => ⟨l⟩)

/-- `s.strip()`. -/
def pyStrip (s : String) : String := ⟨trimChars s.data⟩

/-- `needle.data` occurs as a contiguous sublist of `hay`: Python
`needle in hay` on strings. -/
def subChars (needle : List Char) : List Char → Bool
  | [] => needle.isEmpty
  | c :: t => needle.isPrefixOf (c :: t) || subChars needle t

/-- Python substring containment `needle in hay`. -/
def subStr (needle hay : String) : Bool := subChars needle.data hay.data

/-- `pathlib.Path(p).name`: the final path component (empty-component safe;
trailing slashes are ignored, as in pathlib). -/
def pyBasename (p : String) : String :=
  ((pySplit '/' p).filter (fun c => c ≠ "")).getLastD ""

/-- `os.path.join(a, b)` where `a` is an absolute directory path without a
trailing slash: an absolute `b` replaces `a`, otherwise the components are
joined with a slash. -/
def pyJoin (a b : String) : String :=
  match b.data with
  | '/' :: _ => b
  | _ => a ++ "/" ++ b

/-- `list.index(x)` as an option: index of the first occurrence. -/
def firstIdxOf (x : String) : List String → Option Nat
  | [] => none
  | a :: t => if a = x then some 0 else (firstIdxOf x t).map (· + 1)

/-- First-occurrence deduplication: an element is kept exactly when no
earlier element equals it (the order in which a Python `set` built from a
list is modelled below; no validated property depends on the iteration order
of a set, only on its membership). -/
def dedupFAux {α : Type} [DecidableEq α] (seen : List α) : List α → List α
  | [] => []
  | a :: l =>
    if a ∈ seen then dedupFAux (seen ++ [a]) l
    else a :: dedupFAux (seen ++ [a]) l

def dedupF {α : Type} [DecidableEq α] (l : List α) : List α := dedupFAux [] l

/-- First-occurrence deduplication with respect to a Boolean relation `r`:
`pandas.DataFrame.drop_duplicates()` with `keep="first"`, where `r` is row
equality — a row is kept exactly when no earlier row is `r`-related to
it. -/
def dedupByRAux {α : Type} (r : α → α → Bool) (seen : List α) : List α → List α
  | [] => []
  | a :: l =>
    if seen.any (fun b => r b a) then dedupByRAux r (seen ++ [a]) l
    else a :: dedupByRAux r (seen ++ [a]) l

def dedupByR {α : Type} (r : α → α → Bool) (l : List α) : List α :=
  dedupByRAux r [] l

/- ## The ORCID token scanner

`re.findall(r"\[\d\x7b4\x7d-\d\x7b4\x7d-\d\x7b4\x7d-\d\x7b3\x7d[\dX]\]", x)`
followed by `s[1:-1]` on every match (validate_reagent_resources.py lines
457-472): scan left to right, match the 20-character bracketed ORCID shape,
return the 19 inner characters of each non-overlapping match. -/

def isDigitChar (c : Char) : Bool := '0' ≤ c && c ≤ '9'

/-- The 19 characters between the brackets: `dddd-dddd-dddd-ddd(d|X)`. -/
def orcidBody (l : List Char) : Bool :=
  match l with
  | [a, b, c, d, '-', e, f, g, h, '-', i, j, k, m, '-', n, o, p, q] =>
      ([a, b, c, d, e, f, g, h, i, j, k, m, n, o, p].all isDigitChar)
        && (isDigitChar q || q = 'X')
  | _ => false

def findOrcidsAux : Nat → List Char → List String
  | 0, _ => []
  | _ + 1, [] => []
  | fuel + 1, c :: rest =>
    if c = '[' && orcidBody (rest.take 19) && (rest.drop 19).head? = some ']' then
      (⟨rest.take 19⟩ : String) :: findOrcidsAux fuel (rest.drop 20)
    else
      findOrcidsAux fuel rest

/-- All bracketed ORCID tokens of `s`, brackets stripped. -/
def findOrcids (s : String) : List String := findOrcidsAux s.data.length s.data

/- ## Data model -/

/-- One row of `reagent_resources.csv` as read with
`pd.read_csv(csv_file_name, dtype=str, keep_default_na=False)`: every cell is
a raw string.  The columns are the ones of the data model of the
specification (the ones the script addresses by name, plus the remaining
descriptive column `Vendor`). -/
structure RRow where
  target : String
  conjugate : String
  contributor : String
  agree : String
  disagree : String
  vendor : String
  imageFiles : String
  captions : String
  md5 : String
deriving DecidableEq, Repr, Inhabited

/-- The named cells of a row, in column order. -/
def rrCells (r : RRow) : List (String × String) :=
  [("Target Name / Protein Biomarker", r.target),
   ("Conjugate", r.conjugate),
   ("Contributor", r.contributor),
   ("Agree", r.agree),
   ("Disagree", r.disagree),
   ("Vendor", r.vendor),
   ("Image Files", r.imageFiles),
   ("Captions", r.captions),
   ("MD5", r.md5)]

def colNames : List String :=
  ["Target Name / Protein Biomarker", "Conjugate", "Contributor", "Agree",
   "Disagree", "Vendor", "Image Files", "Captions", "MD5"]

/-- Cell access by column name (`df[c]` for one row). -/
def getCol (r : RRow) (c : String) : Option String :=
  ((rrCells r).find? (fun p => p.1 == c)).map Prod.snd

/-- A row after the in-place parsing steps of the script (lines 137-142 and
194-196): `Agree`/`Disagree` split into token lists, the three image columns
split into parallel lists. -/
structure PRow where
  target : String
  conjugate : String
  contributor : String
  vendor : String
  agreeL : List String
  disagreeL : List String
  imagesL : List String
  captionsL : List String
  md5L : List String
deriving DecidableEq, Repr, Inhabited

/-- Lines 137-142: `[v.strip() for v in x.split(";") if v.strip() not in ["", "NA"]]`. -/
def parseAD (s : String) : List String :=
  ((pySplit ';' s).map pyStrip).filter (fun v => !(v == "" || v == "NA"))

/-- Lines 194-196: `[] if x.strip() == "NA" else [v.strip() for v in x.split(";")]`. -/
def parseImg (s : String) : List String :=
  if pyStrip s = "NA" then [] else (pySplit ';' s).map pyStrip

def parseRow (r : RRow) : PRow :=
  { target := r.target, conjugate := r.conjugate, contributor := r.contributor,
    vendor := r.vendor,
    agreeL := parseAD r.agree, disagreeL := parseAD r.disagree,
    imagesL := parseImg r.imageFiles, captionsL := parseImg r.captions,
    md5L := parseImg r.md5 }

/-- The validation-rule configuration JSON: the two recognized rule families
(`column_is_in`, `multi_value_column_is_in`), each an optional mapping from
column name to allowed-value list. -/
structure Config where
  column_is_in : Option (List (String × List String))
  multi_value_column_is_in : Option (List (String × List String))

/-- The file-system oracle.  `mdContent p` is the content of the markdown
file at path `p` when it exists (`pathlib.Path.is_file` plus `open().read()`),
`allMdPaths` is `rglob("*.md")` under the supporting-material root,
`imageHash p` is the MD5 hash of the file at `p` when it exists
(`os.path.isfile` plus `md5sum`, the streamed-chunk hash helper of
`data_validation/utilities.py`), and `allImagePaths` is the `os.walk` listing
of non-markdown, non-ignored files as absolute paths. -/
structure FS where
  mdContent : String → Option String
  allMdPaths : List String
  imageHash : String → Option String
  allImagePaths : List String

/-- One stderr diagnostic block of the script, tagged by its print site. -/
inductive Diag where
  | emptyCells (cells : List (String × List Nat))
  | duplicateRows (groups : List (List Nat))
  | contributorMissing (rows : List Nat)
  | tooManyOrcids (rows : List Nat)
  | missingDoc (path : String)
  | docParseError (path : String)
  | docMismatch (path : String)
  | imageNotReferenced (fname caption : String) (row : Nat) (doc : String)
  | superfluousMd (paths : List String)
  | imageCountMismatch (rows : List Nat)
  | missingImages (entries : List (Nat × String))
  | md5Mismatch (entries : List (Nat × String))
  | superfluousImages (paths : List String)
deriving DecidableEq, Repr

/- ## validate_reagent_resources: the eight checks -/

def MAX_ORCID_ENTRIES : Nat := 5

/-- Line 60: the printed row number of the zero-based data row `i` is
`i + shiftIndex`, matching spreadsheet numbering (row 1 is the header). -/
def shiftIndex : Nat := 2

/-- Lines 63-70: per column, the (shifted) row numbers of the cells whose
stripped content is empty; columns without empty cells are not listed. -/
def emptyCellReport (df : List RRow) : List (String × List Nat) :=
  colNames.filterMap (fun c =>
    let rows := df.enum.filterMap (fun q =>
      if pyStrip (((getCol q.2 c).getD "")) = "" then some (q.1 + shiftIndex) else none)
    if rows.isEmpty then none else some (c, rows))

/-- Modelled from the spec: `validate_df` lives in
`data_validation/utilities.py`, which is not among the provided sources.
Following specification sections 4.1 and 4.2, it applies the two recognized
rule families to the table and returns 0 exactly when no rule is violated:
every `column_is_in` entry requires each cell of the named column to be in
the allowed list, and every `multi_value_column_is_in` entry requires each
stripped semicolon-delimited token of each cell of the named column to be in
the allowed list.  A configured column that is absent from the table counts
as a violation.  (Other structural rules of the real configuration file are
collaborator behavior outside the modelled rule families.) -/
def validate_df (df : List RRow) (cfg : Config) : Nat :=
  let ciOK :=
    match cfg.column_is_in with
    | none => true
    | some m => m.all (fun p => df.all (fun r =>
        match getCol r p.1 with
        | some v => p.2.contains v
        | none => false))
  let mvOK :=
    match cfg.multi_value_column_is_in with
    | none => true
    | some m => m.all (fun p => df.all (fun r =>
        match getCol r p.1 with
        | some v => ((pySplit ';' v).map pyStrip).all (fun t => p.2.contains t)
        | none => false))
  if ciOK && mvOK then 0 else 1

/-- Python dict assignment `m[k] = v`. -/
def setAssoc (m : List (String × List String)) (k : String) (v : List String) :
    List (String × List String) :=
  if m.any (fun p => p.1 == k) then
    m.map (fun p => if p.1 == k then (k, v) else p)
  else m ++ [(k, v)]

/-- Lines 93-109: injection of the externally loaded ORCID and vendor lists
into the configuration dictionary.  The `else` branch of lines 98-100 is
reproduced faithfully: `configuration_dict["column_is_in"]` is assigned a
dictionary holding only `Contributor` and is immediately reassigned a
dictionary holding only `Vendor`, so the `Contributor` entry is lost. -/
def addConfig (cfg : Config) (orcids vendors : List String) : Config :=
  let ci :=
    match cfg.column_is_in with
    | some m => setAssoc (setAssoc m "Contributor" orcids) "Vendor" vendors
    | none => [("Vendor", vendors)]
  let mv :=
    match cfg.multi_value_column_is_in with
    | some m => setAssoc (setAssoc m "Agree" orcids) "Disagree" orcids
    | none => [("Agree", orcids), ("Disagree", orcids)]
  { column_is_in := some ci, multi_value_column_is_in := some mv }

/-- Line 117: the columns kept by
`df.drop(["Contributor", "Agree", "Disagree"], axis=1)`. -/
def dupKey (r : RRow) : List String :=
  [r.target, r.conjugate, r.vendor, r.imageFiles, r.captions, r.md5]

/-- Lines 118-121: groups of (zero-based) indices of rows that are duplicates
of one another once the contributor columns are dropped.  (`groupby` sorts
groups by key; group order is modelled as first-occurrence order, and no
validated property depends on it.) -/
def dupGroups (df : List RRow) : List (List Nat) :=
  (dedupF (df.map dupKey)).filterMap (fun k =>
    let idxs := df.enum.filterMap (fun q => if dupKey q.2 == k then some q.1 else none)
    if 2 ≤ idxs.length then some idxs else none)

/-- Zero-based indices of the rows of `pdf` satisfying `p`. -/
def violIdx (p : PRow → Bool) (pdf : List PRow) : List Nat :=
  pdf.enum.filterMap (fun q => if p q.2 then some q.1 else none)

/-- Lines 143-147: the Contributor does not appear in the parsed Agree or
Disagree token list. -/
def contributorMissingB (r : PRow) : Bool :=
  !((r.agreeL ++ r.disagreeL).contains r.contributor)

/-- Lines 157-162: more than `MAX_ORCID_ENTRIES` tokens in the parsed Agree
list or in the parsed Disagree list (token-list length, so a repeated ORCID
is counted with multiplicity). -/
def cardViolB (r : PRow) : Bool :=
  MAX_ORCID_ENTRIES < r.agreeL.length || MAX_ORCID_ENTRIES < r.disagreeL.length

/-- Lines 174-177: the parsed Agree and Disagree token lists intersect. -/
def overlapB (r : PRow) : Bool :=
  r.agreeL.any (fun x => r.disagreeL.contains x)

/- ## Supporting-material cross-validation -/

/-- A table cell for the configuration-table comparison: either a raw string
or a frozenset of ORCID strings. -/
inductive CellVal where
  | cstr (v : String)
  | cset (v : Finset String)
deriving DecidableEq

/-- A configuration-table row: column-name/value pairs in column order.
`pandas` compares rows of concatenated frames by column name, so row
equality below is lookup-function equality, not list equality. -/
abbrev DRow := List (String × CellVal)

def rowLookup (r : DRow) (k : String) : Option CellVal :=
  ((r.find? (fun p => p.1 == k)).map Prod.snd)

/-- Row equality as `pandas` sees it after `pd.concat` aligns columns by
name: the two rows agree on every column name of either row (a column absent
from one row reads as missing on both sides only when absent from both). -/
def rowEquivB (r1 r2 : DRow) : Bool :=
  ((r1 ++ r2).map Prod.fst).all (fun k => rowLookup r1 k == rowLookup r2 k)

/-- Lines 483-490: the equivalence test between the parsed supporting
document table `a` and the csv-derived table `b` — equal lengths, and
concatenating and dropping duplicate rows leaves the length unchanged. -/
def tables_match (a b : List DRow) : Bool :=
  a.length == b.length && (dedupByR rowEquivB (a ++ b)).length == a.length

/-- Lines 400-411 and 477-480: the csv-derived configuration row of one data
row — every column except the dropped `Image Files`/`Captions`/`MD5`, with
`Agree`/`Disagree` as frozensets. -/
def csvConfigRow (r : PRow) : DRow :=
  [("Target Name / Protein Biomarker", .cstr r.target),
   ("Conjugate", .cstr r.conjugate),
   ("Contributor", .cstr r.contributor),
   ("Agree", .cset r.agreeL.toFinset),
   ("Disagree", .cset r.disagreeL.toFinset),
   ("Vendor", .cstr r.vendor)]

/-- Lines 400-403 with 478-480: the rows of the group in whose parsed Agree
or Disagree list `orcid` appears, as configuration rows. -/
def orcidConfigTable (rows : List (Nat × PRow)) (orcid : String) : List DRow :=
  (rows.filter (fun q => q.2.agreeL.contains orcid || q.2.disagreeL.contains orcid)).map
    (fun q => csvConfigRow q.2)

/-- Lines 428-472: parse the `# Configurations` table of a supporting
document.  `none` models every exception of the `try` block: a missing
section header (`list.index` raising `ValueError`), a header line past the
end of the content (`IndexError`), ragged table rows
(`pd.DataFrame` raising `ValueError`), a missing `Notes`, `Agree`,
`Disagree` or `Contributor` column (`KeyError`), and a `Contributor` cell
without a bracketed ORCID token (`re.findall(...)[0]` raising
`IndexError`). -/
def parseSupportingDoc (content : String) : Option (List DRow) := do
  let lines := ((pySplit '\n' content).map pyStrip).filter (fun c => c ≠ "")
  let ci ← firstIdxOf "# Configurations" lines
  let configStart := ci + 1
  let configEnd ← firstIdxOf "# Publications" lines
  let headerLine ← lines.get? configStart
  let columns := ((pySplit '|' headerLine).map pyStrip).filter (fun c => c ≠ "")
  let rawRows := (List.range' (configStart + 2) (configEnd - (configStart + 2))).map
    (fun i => lines.getD i "")
  let cells := rawRows.map (fun rl => (((pySplit '|' rl).map pyStrip).drop 1).dropLast)
  if cells.any (fun r => r.length ≠ columns.length) then none
  else if !(columns.contains "Notes" && columns.contains "Agree"
      && columns.contains "Disagree" && columns.contains "Contributor") then none
  else
    cells.mapM (fun r =>
      ((columns.zip r).filter (fun p => p.1 ≠ "Notes")).mapM (fun p =>
        if p.1 = "Agree" || p.1 = "Disagree" then
          some (p.1, CellVal.cset (findOrcids p.2).toFinset)
        else if p.1 = "Contributor" then
          ((findOrcids p.2).head?).map (fun o => (p.1, CellVal.cstr o))
        else some (p.1, CellVal.cstr p.2)))

/-- Lines 346-361: the characters replaced by an underscore in the
target/conjugate directory name. -/
def invalid_chars : List Char :=
  [' ', '\t', '/', '\\', '\x7b', '\x7d', '[', ']', '(', ')', '<', '>', ':', '&']

/-- Lines 239-246: `replace_char_list` — replace every occurrence of each
character of `changeCharsList` by `replacementChar`.  (Python iterates
`str.replace` per character; since each pattern is a single character and the
replacement character is not rewritten again, this equals a single
character-wise map, proved below in `replace_char_list_eq_map`.) -/
def replace_char_list (inputStr : String) (changeCharsList : List Char)
    (replacementChar : Char) : String :=
  ⟨changeCharsList.foldl
    (fun l c => l.map (fun ch => if ch = c then replacementChar else ch))
    inputStr.data⟩

/-- Lines 374-380: the supporting-material directory of a
(target, conjugate) group. -/
def docDirPath (root : String) (g : String × String) : String :=
  pyJoin root (replace_char_list (g.1 ++ "_" ++ g.2) invalid_chars '_')

/-- Line 394: the expected supporting document of `orcid` in group `g`. -/
def docPath (root : String) (g : String × String) (orcid : String) : String :=
  pyJoin (docDirPath root g) (orcid ++ ".md")

/-- Lines 365-368: the rows of the group, with their zero-based indices. -/
def tcRows (pdf : List PRow) (g : String × String) : List (Nat × PRow) :=
  pdf.enum.filter (fun q => q.2.target == g.1 && q.2.conjugate == g.2)

/-- Lines 370-372: all ORCIDs appearing in the parsed Agree/Disagree lists of
the group, `NA` removed (the parse already dropped `NA` tokens, so the
removal is vacuous but kept for fidelity).  Python set iteration order is
modelled as first-occurrence order; no validated property depends on it. -/
def groupOrcids (rows : List (Nat × PRow)) : List String :=
  (dedupF ((rows.map (fun q => q.2.agreeL ++ q.2.disagreeL)).flatten)).filter
    (fun o => o ≠ "NA")

/-- Lines 384-390: the (file name, caption, row index) triples of the group.
`zip` truncates to the shorter of the file and caption lists, as in
Python. -/
def groupTriples (rows : List (Nat × PRow)) : List (String × String × Nat) :=
  (rows.map (fun q => (q.2.imagesL.zip q.2.captionsL).map
    (fun fc => (fc.1, fc.2, q.1)))).flatten

/-- The running state of the per-ORCID loop of lines 393-498: accumulated
file names, status, diagnostics, the surviving image/caption triples, and
the last value assigned to `md_file_path` (none before the first
iteration). -/
structure GroupState where
  fns : List String
  status : Nat
  diags : List Diag
  triples : List (String × String × Nat)
  lastPath : Option String

/-- One iteration of the loop of lines 393-498 for a single ORCID: record the
expected document path, report it when missing, otherwise strike the
image/caption triples referenced by the document content and compare the
parsed configuration table against the csv-derived one; any exception of the
`try` block is a reported parse failure for this document only. -/
def groupStep (fs : FS) (rows : List (Nat × PRow)) (dir : String)
    (st : GroupState) (orcid : String) : GroupState :=
  let mdPath := pyJoin dir (orcid ++ ".md")
  match fs.mdContent mdPath with
  | none =>
    { fns := st.fns ++ [mdPath], status := 1,
      diags := st.diags ++ [Diag.missingDoc mdPath],
      triples := st.triples, lastPath := some mdPath }
  | some content =>
    let triples2 := st.triples.filter (fun t =>
      !(subStr (pyBasename t.1) content && subStr t.2.1 content))
    match parseSupportingDoc content with
    | none =>
      { fns := st.fns ++ [mdPath], status := 1,
        diags := st.diags ++ [Diag.docParseError mdPath],
        triples := triples2, lastPath := some mdPath }
    | some tbl =>
      if tables_match tbl (orcidConfigTable rows orcid) then
        { fns := st.fns ++ [mdPath], status := st.status,
          diags := st.diags, triples := triples2, lastPath := some mdPath }
      else
        { fns := st.fns ++ [mdPath], status := 1,
          diags := st.diags ++ [Diag.docMismatch mdPath],
          triples := triples2, lastPath := some mdPath }

/-- Lines 332-509: `validate_supporting_material` for one
(target, conjugate) group.  The returned value is the
(file names, status, diagnostics) triple; `Except.error` models the
`NameError` of line 505: when the group has no ORCIDs at all but leftover
image/caption triples exist, the final reporting loop reads the loop
variable `md_file_path` that was never assigned. -/
def initGroupState (rows : List (Nat × PRow)) : GroupState :=
  { fns := [], status := 0, diags := [], triples := groupTriples rows,
    lastPath := none }

def validate_supporting_material (g : String × String) (pdf : List PRow)
    (fs : FS) (root : String) (shift : Nat) :
    Except String (List String × Nat × List Diag) :=
  let rows := tcRows pdf g
  let orcids := groupOrcids rows
  let dir := docDirPath root g
  let st := orcids.foldl (groupStep fs rows dir) (initGroupState rows)
  if st.triples.isEmpty then .ok (st.fns, st.status, st.diags)
  else
    match st.lastPath with
    | none => .error "NameError: name md_file_path is not defined"
    | some p =>
      .ok (st.fns, 1, st.diags ++ st.triples.map (fun t =>
        Diag.imageNotReferenced t.1 t.2.1 (t.2.2 + shift) p))

/- ## Image validation -/

/-- Lines 251-253: the absolute paths of the image files of one row.
`root` is `os.path.abspath(supporting_material_root_dir)` (the root is taken
to be an absolute path already). -/
def absFiles (root : String) (r : PRow) : List String :=
  r.imagesL.map (fun v => pyJoin root v)

/-- Lines 254-260: the (shifted) row numbers of the rows whose image, caption
and hash lists do not have one common length. -/
def imgLenViol (pdf : List PRow) : List Nat :=
  pdf.enum.filterMap (fun q =>
    if q.2.imagesL.length ≠ q.2.captionsL.length
        || q.2.captionsL.length ≠ q.2.md5L.length then
      some (q.1 + shiftIndex)
    else none)

/-- Lines 271-278: the (row number, absolute path) pairs of the listed image
files that do not exist on disk, collected across all rows. -/
def missingEntries (pdf : List PRow) (fs : FS) (root : String) :
    List (Nat × String) :=
  (pdf.enum.map (fun q =>
    ((absFiles root q.2).zip q.2.md5L).filterMap (fun fm =>
      if fs.imageHash fm.1 = none then some (q.1 + shiftIndex, fm.1)
      else none))).flatten

/-- Lines 271-280: the (row number, absolute path) pairs of the listed image
files that exist but whose content hash differs from the recorded one,
collected across all rows. -/
def mismatchEntries (pdf : List PRow) (fs : FS) (root : String) :
    List (Nat × String) :=
  (pdf.enum.map (fun q =>
    ((absFiles root q.2).zip q.2.md5L).filterMap (fun fm =>
      match fs.imageHash fm.1 with
      | some h => if h ≠ fm.2 then some (q.1 + shiftIndex, fm.1) else none
      | none => none))).flatten

/-- Lines 315-318: every image file listed in the csv, as absolute paths. -/
def csvImagePaths (pdf : List PRow) (root : String) : List String :=
  (pdf.map (absFiles root)).flatten

/-- Lines 305-321: the non-markdown, non-ignored files on disk that the csv
does not list. -/
def superfluousImagePaths (pdf : List PRow) (fs : FS) (root : String) :
    List String :=
  fs.allImagePaths.filter (fun p => !((csvImagePaths pdf root).contains p))

/-- Lines 249-329: `validate_images`. -/
def validate_images (pdf : List PRow) (fs : FS) (root : String) :
    Nat × List Diag :=
  let lenViol := imgLenViol pdf
  if !lenViol.isEmpty then (1, [Diag.imageCountMismatch lenViol])
  else
    let missing := missingEntries pdf fs root
    let mismatch := mismatchEntries pdf fs root
    let diags1 := (if missing.isEmpty then [] else [Diag.missingImages missing])
      ++ (if mismatch.isEmpty then [] else [Diag.md5Mismatch mismatch])
    if !missing.isEmpty || !mismatch.isEmpty then (1, diags1)
    else
      let superfluous := superfluousImagePaths pdf fs root
      if !superfluous.isEmpty then (1, [Diag.superfluousImages superfluous])
      else (0, [])

/- ## The top-level validator -/

/-- Lines 198-200: the distinct (target, conjugate) pairs, in first-occurrence
order (`drop_duplicates` keeps the first of each group). -/
def uniqueTC (pdf : List PRow) : List (String × String) :=
  dedupF (pdf.map (fun r => (r.target, r.conjugate)))

/-- Lines 50-236: `validate_reagent_resources`.  The inputs are the parsed
csv table `df`, the validation-rule configuration `cfg`, the stripped ORCID
strings of the `.zenodo.json` creators and the vendor-registry names (the
surrounding file reads are collaborator behavior), the file-system oracle
and the absolute supporting-material root path.  The result is the returned
status plus the stderr diagnostics; `Except.error` models the uncaught
Python exceptions: the `TypeError` of lines 180-182 (iterating the integer
row index of an Agree/Disagree overlap as if it were a tuple) and the
`NameError` of line 505. -/
def validate_reagent_resources (df : List RRow) (cfg : Config)
    (creators vendors : List String) (fs : FS) (root : String) :
    Except String (Nat × List Diag) :=
  let ecr := emptyCellReport df
  if !ecr.isEmpty then .ok (1, [Diag.emptyCells ecr])
  else
    let orcids := creators.map pyStrip ++ ["NA"]
    let cfg2 := addConfig cfg orcids vendors
    let res := validate_df df cfg2
    if res ≠ 0 then .ok (res, [])
    else
      let dups := dupGroups df
      if !dups.isEmpty then
        .ok (1, [Diag.duplicateRows (dups.map (fun l => l.map (· + shiftIndex)))])
      else
        let pdf := df.map parseRow
        let cm := violIdx contributorMissingB pdf
        if !cm.isEmpty then
          .ok (1, [Diag.contributorMissing (cm.map (· + shiftIndex))])
        else
          let card := violIdx cardViolB pdf
          if !card.isEmpty then
            .ok (1, [Diag.tooManyOrcids (card.map (· + shiftIndex))])
          else
            let ovl := violIdx overlapB pdf
            if !ovl.isEmpty then
              .error "TypeError: numpy.int64 object is not iterable"
            else do
              let gres ← (uniqueTC pdf).mapM
                (fun g => validate_supporting_material g pdf fs root shiftIndex)
              let gdiags := (gres.map (fun t => t.2.2)).flatten
              let collected := (gres.map (fun t => t.1)).flatten
              if gres.any (fun t => t.2.1 ≠ 0) then .ok (1, gdiags)
              else
                let superMd := fs.allMdPaths.filter (fun p => !(collected.contains p))
                if !superMd.isEmpty then .ok (1, gdiags ++ [Diag.superfluousMd superMd])
                else
                  let (s, idiags) := validate_images pdf fs root
                  .ok (s, gdiags ++ idiags)

/- ## Concrete scenario data

A small consistent instance used by the concrete theorems below: one csv row
for target `TgtA` and conjugate `ConjB`, contributed and agreed by a single
ORCID, with a supporting document whose Configurations table reproduces the
row, and variations of it. -/

def orcidA : String := "0000-0000-0000-0001"

def orcidB : String := "0000-0000-0000-0002"

def goodDoc : String :=
"# Configurations\n| Target Name / Protein Biomarker | Conjugate | Contributor | Agree | Disagree | Vendor | Notes |\n| --- | --- | --- | --- | --- | --- | --- |\n| TgtA | ConjB | [0000-0000-0000-0001] | [0000-0000-0000-0001] | NA | VendorX | - |\n# Publications\n"

def goodRow : RRow :=
  { target := "TgtA", conjugate := "ConjB", contributor := orcidA,
    agree := orcidA, disagree := "NA", vendor := "VendorX",
    imageFiles := "NA", captions := "NA", md5 := "NA" }

def goodPath : String := "/data/TgtA_ConjB/0000-0000-0000-0001.md"

def goodFS : FS :=
  { mdContent := fun p => if p = goodPath then some goodDoc else none,
    allMdPaths := [goodPath],
    imageHash := fun _ => none,
    allImagePaths := [] }

def cfg0 : Config := { column_is_in := some [], multi_value_column_is_in := some [] }

/- ## Toolkit lemmas -/

theorem violIdx_mem {p : PRow → Bool} {pdf : List PRow} {i : Nat} :
    i ∈ violIdx p pdf ↔ ∃ h : i < pdf.length, p pdf[i] = true := by
  simp only [violIdx, List.mem_filterMap]
  constructor
  · rintro ⟨⟨j, r⟩, hmem, hf⟩
    rw [List.mem_enum_iff_getElem?] at hmem
    obtain ⟨hj, hr⟩ := List.getElem?_eq_some.mp hmem
    by_cases hp : p r = true
    · simp only [hp, if_true, Option.some.injEq] at hf
      subst hf
      exact ⟨hj, by rw [hr]; exact hp⟩
    · simp only [Bool.not_eq_true] at hp
      simp [hp] at hf
  · rintro ⟨h, hp⟩
    refine ⟨(i, pdf[i]), ?_, by simp [hp]⟩
    rw [List.mem_enum_iff_getElem?]
    exact List.getElem?_eq_some.mpr ⟨h, rfl⟩

theorem violIdx_nil {p : PRow → Bool} {pdf : List PRow}
    (h : ∀ r ∈ pdf, p r = false) : violIdx p pdf = [] := by
  rw [List.eq_nil_iff_forall_not_mem]
  intro i hi
  obtain ⟨hlt, hp⟩ := violIdx_mem.mp hi
  have := h pdf[i] (List.getElem_mem _)
  rw [this] at hp
  exact Bool.false_ne_true hp

/-- Membership in the generic per-row index list used by `emptyCellReport`
and `imgLenViol`: the shifted index of a row satisfying the given test. -/
theorem enumShift_mem {α : Type} (q : α → Bool) {l : List α} {n : Nat} :
    n ∈ l.enum.filterMap (fun p => if q p.2 then some (p.1 + shiftIndex) else none)
      ↔ ∃ i, ∃ h : i < l.length, n = i + shiftIndex ∧ q l[i] = true := by
  simp only [List.mem_filterMap]
  constructor
  · rintro ⟨⟨j, r⟩, hmem, hf⟩
    rw [List.mem_enum_iff_getElem?] at hmem
    obtain ⟨hj, hr⟩ := List.getElem?_eq_some.mp hmem
    by_cases hp : q r = true
    · simp only [hp, if_true, Option.some.injEq] at hf
      exact ⟨j, hj, hf.symm, by rw [hr]; exact hp⟩
    · simp only [Bool.not_eq_true] at hp
      simp [hp] at hf
  · rintro ⟨i, h, hn, hp⟩
    refine ⟨(i, l[i]), ?_, by simp [hp, hn]⟩
    rw [List.mem_enum_iff_getElem?]
    exact List.getElem?_eq_some.mpr ⟨h, rfl⟩

theorem emptyCellReport_nil {df : List RRow}
    (h : ∀ r ∈ df, ∀ c ∈ colNames, pyStrip ((getCol r c).getD "") ≠ "") :
    emptyCellReport df = [] := by
  rw [emptyCellReport, List.filterMap_eq_nil_iff]
  intro c hc
  have hrows : df.enum.filterMap (fun q =>
      if pyStrip ((getCol q.2 c).getD "") = "" then some (q.1 + shiftIndex) else none) = [] := by
    rw [List.filterMap_eq_nil_iff]
    rintro ⟨j, r⟩ hmem
    rw [List.mem_enum_iff_getElem?] at hmem
    obtain ⟨hj, hr⟩ := List.getElem?_eq_some.mp hmem
    have hr2 : df[j] = r := hr
    have hmem2 : r ∈ df := by rw [← hr2]; exact List.getElem_mem _
    simp [h r hmem2 c hc]
  simp [hrows]

/- ## C3: identity cross-reference injection -/

/-- C3: the claim states that for every configuration — with or without a
pre-existing `column_is_in` key — the resolver leaves `column_is_in` mapping
both `Contributor` (to the creators ORCIDs plus `NA`) and `Vendor`, and
`multi_value_column_is_in` mapping `Agree` and `Disagree`.  The code
contradicts this: when the configuration has no `column_is_in` key, the
assignment of lines 99-100 overwrites the dictionary that held the
`Contributor` entry with one holding only `Vendor`, so the `Contributor`
constraint is silently dropped (first conjunct).  The multi-value branch and
the present-key branch behave as claimed (remaining conjuncts). -/
theorem c3_contributor_entry_lost :
    (addConfig { column_is_in := none, multi_value_column_is_in := none }
        [orcidA, "NA"] ["VendorX"]).column_is_in
      = some [("Vendor", ["VendorX"])]
    ∧ (addConfig { column_is_in := none, multi_value_column_is_in := none }
        [orcidA, "NA"] ["VendorX"]).multi_value_column_is_in
      = some [("Agree", [orcidA, "NA"]), ("Disagree", [orcidA, "NA"])]
    ∧ (addConfig { column_is_in := some [], multi_value_column_is_in := some [] }
        [orcidA, "NA"] ["VendorX"]).column_is_in
      = some [("Contributor", [orcidA, "NA"]), ("Vendor", ["VendorX"])]
    ∧ (addConfig { column_is_in := some [], multi_value_column_is_in := some [] }
        [orcidA, "NA"] ["VendorX"]).multi_value_column_is_in
      = some [("Agree", [orcidA, "NA"]), ("Disagree", [orcidA, "NA"])] :=
  ⟨rfl, rfl, rfl, rfl⟩

/- ## C4: agree/disagree cardinality -/

/-- A row whose Agree cell lists the same ORCID six times. -/
def c4Row : RRow :=
  { goodRow with agree :=
      "0000-0000-0000-0001;0000-0000-0000-0001;0000-0000-0000-0001;0000-0000-0000-0001;0000-0000-0000-0001;0000-0000-0000-0001" }

/-- C4 counterexample: the claim states that a row fails the cardinality
check exactly when the set of distinct ORCIDs in Agree or in Disagree has
more than 5 elements.  This row has one distinct Agree ORCID and no
Disagree ORCIDs, yet the check flags it (the code compares the token-list
length, counting repetitions). -/
theorem c4_counterexample :
    (parseAD c4Row.agree).toFinset.card = 1
    ∧ (parseAD c4Row.disagree).toFinset.card = 0
    ∧ cardViolB (parseRow c4Row) = true
    ∧ violIdx cardViolB [parseRow c4Row] = [0] := by
  refine ⟨by decide, by decide, by decide, by decide⟩

/-- C4 amended: the Agree/Disagree cells are parsed by splitting on
semicolons, stripping each token and dropping empty and `NA` tokens, and a
row is flagged by the cardinality check exactly when the resulting token
list of Agree or of Disagree has more than `MAX_ORCID_ENTRIES` entries —
counting a repeated ORCID with multiplicity, not as a set. -/
theorem c4_amended (df : List RRow) (i : Nat) :
    i ∈ violIdx cardViolB (df.map parseRow) ↔
      ∃ _ : i < df.length,
        MAX_ORCID_ENTRIES < (((pySplit ';' ((df.getD i default).agree)).map pyStrip).filter
            (fun v => !(v == "" || v == "NA"))).length
        ∨ MAX_ORCID_ENTRIES < (((pySplit ';' ((df.getD i default).disagree)).map pyStrip).filter
            (fun v => !(v == "" || v == "NA"))).length := by
  rw [violIdx_mem]
  constructor
  · rintro ⟨h, hp⟩
    rw [List.length_map] at h
    rw [List.getElem_map] at hp
    refine ⟨h, ?_⟩
    rw [List.getD_eq_getElem df default h]
    rw [cardViolB] at hp
    simp only [Bool.or_eq_true, decide_eq_true_eq] at hp
    exact hp
  · rintro ⟨h, hp⟩
    rw [List.getD_eq_getElem df default h] at hp
    refine ⟨by rw [List.length_map]; exact h, ?_⟩
    rw [List.getElem_map, cardViolB]
    simp only [Bool.or_eq_true, decide_eq_true_eq]
    exact hp

/- ## C6: exception safety -/

/-- A row whose single Agree ORCID also appears in Disagree. -/
def c6Row : RRow := { goodRow with disagree := orcidA }

/-- C6: the claim states that the validator always terminates normally with
an integer status and never propagates an exception.  On a row whose
Agree and Disagree lists share an ORCID, the disjointness check of lines
174-188 finds a violating row index and the comprehension of lines 180-182
(`for i in indexes` where `indexes` is that integer index) raises an
uncaught `TypeError`, modelled here as the error result.  In the same
scenario every earlier check passes, so the crash is reached on otherwise
well-formed input. -/
theorem c6_overlap_typeerror :
    overlapB (parseRow c6Row) = true
    ∧ validate_reagent_resources [c6Row] cfg0 [orcidA] ["VendorX"] goodFS "/data"
        = .error "TypeError: numpy.int64 object is not iterable" :=
  ⟨by decide, rfl⟩

/- ## C2: sequential gates -/

/-- A copy of the consistent row whose Vendor cell is whitespace only. -/
def blankRow : RRow := { goodRow with vendor := " " }

/-- C2 counterexample: the claim states that checks 1 through 5 all run and
report their offending rows even when an earlier check has already failed.
On a table whose first row has a blank cell and whose second and third rows
are duplicates of each other, the duplicate-row check (check 3) has
offending rows, but the validator returns after check 1 with only the
empty-cell diagnostic: check 3 never reports. -/
theorem c2_counterexample :
    dupGroups [blankRow, goodRow, goodRow] = [[1, 2]]
    ∧ validate_reagent_resources [blankRow, goodRow, goodRow] cfg0 [orcidA]
        ["VendorX"] goodFS "/data"
      = .ok (1, [Diag.emptyCells [("Vendor", [2])]]) :=
  ⟨by decide, rfl⟩

/-- C2 amended: the empty-cell, schema, duplicate-row,
contributor-membership and cardinality checks are sequential gates: the
first of them that finds a violation reports all of its offending
cells/rows and the validator returns immediately, so no later check runs or
reports; a violation of the disjointness check also halts the run, but by
raising an uncaught TypeError instead of reporting and returning.  The six
conjuncts exhibit the gates in order: a non-empty empty-cell report
short-circuits everything after check 1; with clean cells and a schema
failure the validator returns the schema status and nothing later runs;
with clean cells, a passing schema and duplicate rows present, the
duplicate report (all offending rows, grouped) is the only diagnostic; next
in line, all rows whose Contributor is missing from their parsed
Agree/Disagree lists are reported together and nothing later runs; next,
all rows with too many parsed Agree or Disagree entries are reported
together and nothing later runs; and an Agree/Disagree overlap ends the run
with the uncaught TypeError, reporting nothing. -/
theorem c2_amended_gates (df : List RRow) (cfg : Config)
    (creators vendors : List String) (fs : FS) (root : String) :
    (emptyCellReport df ≠ [] →
      validate_reagent_resources df cfg creators vendors fs root
        = .ok (1, [Diag.emptyCells (emptyCellReport df)]))
    ∧ (emptyCellReport df = [] →
        validate_df df (addConfig cfg (creators.map pyStrip ++ ["NA"]) vendors) ≠ 0 →
        validate_reagent_resources df cfg creators vendors fs root
          = .ok (validate_df df (addConfig cfg (creators.map pyStrip ++ ["NA"]) vendors), []))
    ∧ (emptyCellReport df = [] →
        validate_df df (addConfig cfg (creators.map pyStrip ++ ["NA"]) vendors) = 0 →
        dupGroups df ≠ [] →
        validate_reagent_resources df cfg creators vendors fs root
          = .ok (1, [Diag.duplicateRows ((dupGroups df).map (fun l => l.map (· + shiftIndex)))]))
    ∧ (emptyCellReport df = [] →
        validate_df df (addConfig cfg (creators.map pyStrip ++ ["NA"]) vendors) = 0 →
        dupGroups df = [] →
        violIdx contributorMissingB (df.map parseRow) ≠ [] →
        validate_reagent_resources df cfg creators vendors fs root
          = .ok (1, [Diag.contributorMissing
              ((violIdx contributorMissingB (df.map parseRow)).map (· + shiftIndex))]))
    ∧ (emptyCellReport df = [] →
        validate_df df (addConfig cfg (creators.map pyStrip ++ ["NA"]) vendors) = 0 →
        dupGroups df = [] →
        violIdx contributorMissingB (df.map parseRow) = [] →
        violIdx cardViolB (df.map parseRow) ≠ [] →
        validate_reagent_resources df cfg creators vendors fs root
          = .ok (1, [Diag.tooManyOrcids
              ((violIdx cardViolB (df.map parseRow)).map (· + shiftIndex))]))
    ∧ (emptyCellReport df = [] →
        validate_df df (addConfig cfg (creators.map pyStrip ++ ["NA"]) vendors) = 0 →
        dupGroups df = [] →
        violIdx contributorMissingB (df.map parseRow) = [] →
        violIdx cardViolB (df.map parseRow) = [] →
        violIdx overlapB (df.map parseRow) ≠ [] →
        validate_reagent_resources df cfg creators vendors fs root
          = .error "TypeError: numpy.int64 object is not iterable") := by
  refine ⟨?_, ?_, ?_, ?_, ?_, ?_⟩
  · intro h
    simp only [validate_reagent_resources]
    cases hec : emptyCellReport df with
    | nil => exact absurd hec h
    | cons a l => simp only [List.isEmpty_cons, Bool.not_false, if_true]
  · intro h1 h2
    simp only [validate_reagent_resources]
    rw [h1]
    rw [if_neg (by simp)]
    rw [if_pos h2]
  · intro h1 h2 h3
    simp only [validate_reagent_resources]
    rw [h1]
    rw [if_neg (by simp)]
    rw [h2]
    rw [if_neg (by simp)]
    cases hdup : dupGroups df with
    | nil => exact absurd hdup h3
    | cons a l => simp only [List.isEmpty_cons, Bool.not_false, if_true]
  · intro h1 h2 h3 h4
    simp only [validate_reagent_resources]
    rw [h1]
    rw [if_neg (by simp)]
    rw [h2]
    rw [if_neg (by simp)]
    rw [h3]
    rw [if_neg (by simp)]
    cases hcm : violIdx contributorMissingB (df.map parseRow) with
    | nil => exact absurd hcm h4
    | cons a l => simp only [List.isEmpty_cons, Bool.not_false, if_true]
  · intro h1 h2 h3 h4 h5
    simp only [validate_reagent_resources]
    rw [h1]
    rw [if_neg (by simp)]
    rw [h2]
    rw [if_neg (by simp)]
    rw [h3]
    rw [if_neg (by simp)]
    rw [h4]
    rw [if_neg (by simp)]
    cases hcv : violIdx cardViolB (df.map parseRow) with
    | nil => exact absurd hcv h5
    | cons a l => simp only [List.isEmpty_cons, Bool.not_false, if_true]
  · intro h1 h2 h3 h4 h5 h6
    simp only [validate_reagent_resources]
    rw [h1]
    rw [if_neg (by simp)]
    rw [h2]
    rw [if_neg (by simp)]
    rw [h3]
    rw [if_neg (by simp)]
    rw [h4]
    rw [if_neg (by simp)]
    rw [h5]
    rw [if_neg (by simp)]
    cases hov : violIdx overlapB (df.map parseRow) with
    | nil => exact absurd hov h6
    | cons a l => simp only [List.isEmpty_cons, Bool.not_false, if_true]

/-- C2 witness: the first gate at a concrete input — a blank Vendor cell in
the first data row short-circuits the run with only the empty-cell
diagnostic. -/
theorem c2_witness :
    validate_reagent_resources [blankRow, goodRow, goodRow] cfg0 [orcidA]
      ["VendorX"] goodFS "/data"
    = .ok (1, [Diag.emptyCells (emptyCellReport [blankRow, goodRow, goodRow])]) :=
  (c2_amended_gates [blankRow, goodRow, goodRow] cfg0 [orcidA] ["VendorX"]
    goodFS "/data").1 (by decide)

/- ## C8: missing images and hash mismatches -/

theorem missingEntries_mem {pdf : List PRow} {fs : FS} {root : String}
    {e : Nat × String} :
    e ∈ missingEntries pdf fs root ↔
      ∃ i, ∃ _ : i < pdf.length,
        ∃ fm ∈ (absFiles root (pdf.getD i default)).zip (pdf.getD i default).md5L,
          fs.imageHash fm.1 = none ∧ e = (i + shiftIndex, fm.1) := by
  simp only [missingEntries, List.mem_flatten, List.mem_map]
  constructor
  · rintro ⟨l, ⟨⟨j, r⟩, hmem, hl⟩, hel⟩
    rw [List.mem_enum_iff_getElem?] at hmem
    obtain ⟨hj, hr⟩ := List.getElem?_eq_some.mp hmem
    have hr2 : pdf[j] = r := hr
    subst hl
    rw [List.mem_filterMap] at hel
    obtain ⟨fm, hfm, hcond⟩ := hel
    by_cases hh : fs.imageHash fm.1 = none
    · simp only [hh, if_true, Option.some.injEq] at hcond
      refine ⟨j, hj, fm, ?_, hh, hcond.symm⟩
      rw [List.getD_eq_getElem pdf default hj, hr2]
      exact hfm
    · simp [hh] at hcond
  · rintro ⟨i, hi, fm, hfm, hnone, he⟩
    rw [List.getD_eq_getElem pdf default hi] at hfm
    refine ⟨((absFiles root pdf[i]).zip pdf[i].md5L).filterMap (fun fm =>
      if fs.imageHash fm.1 = none then some (i + shiftIndex, fm.1) else none),
      ⟨(i, pdf[i]), ?_, rfl⟩, ?_⟩
    · rw [List.mem_enum_iff_getElem?]
      exact List.getElem?_eq_some.mpr ⟨hi, rfl⟩
    · rw [List.mem_filterMap]
      exact ⟨fm, hfm, by simp [hnone, he]⟩

theorem mismatchEntries_mem {pdf : List PRow} {fs : FS} {root : String}
    {e : Nat × String} :
    e ∈ mismatchEntries pdf fs root ↔
      ∃ i, ∃ _ : i < pdf.length,
        ∃ fm ∈ (absFiles root (pdf.getD i default)).zip (pdf.getD i default).md5L,
          ∃ hh, fs.imageHash fm.1 = some hh ∧ hh ≠ fm.2 ∧ e = (i + shiftIndex, fm.1) := by
  simp only [mismatchEntries, List.mem_flatten, List.mem_map]
  constructor
  · rintro ⟨l, ⟨⟨j, r⟩, hmem, hl⟩, hel⟩
    rw [List.mem_enum_iff_getElem?] at hmem
    obtain ⟨hj, hr⟩ := List.getElem?_eq_some.mp hmem
    have hr2 : pdf[j] = r := hr
    subst hl
    rw [List.mem_filterMap] at hel
    obtain ⟨fm, hfm, hcond⟩ := hel
    cases hh : fs.imageHash fm.1 with
    | none => simp [hh] at hcond
    | some v =>
      rw [hh] at hcond
      have hcond2 : (if v ≠ fm.2 then some ((j, r).1 + shiftIndex, fm.1) else none)
          = some e := hcond
      by_cases hv : v ≠ fm.2
      · rw [if_pos hv, Option.some_inj] at hcond2
        refine ⟨j, hj, fm, ?_, v, hh, hv, hcond2.symm⟩
        rw [List.getD_eq_getElem pdf default hj, hr2]
        exact hfm
      · rw [if_neg hv] at hcond2
        exact absurd hcond2 (by simp)
  · rintro ⟨i, hi, fm, hfm, v, hv, hne, he⟩
    rw [List.getD_eq_getElem pdf default hi] at hfm
    refine ⟨((absFiles root pdf[i]).zip pdf[i].md5L).filterMap (fun fm =>
      match fs.imageHash fm.1 with
      | some h => if h ≠ fm.2 then some (i + shiftIndex, fm.1) else none
      | none => none),
      ⟨(i, pdf[i]), ?_, rfl⟩, ?_⟩
    · rw [List.mem_enum_iff_getElem?]
      exact List.getElem?_eq_some.mpr ⟨hi, rfl⟩
    · rw [List.mem_filterMap]
      refine ⟨fm, hfm, ?_⟩
      rw [hv]
      simp [hne, he]

/-- C8: once the per-row length check has passed, the missing-file scan and
the hash-mismatch scan are collected independently across all rows (first
two conjuncts: every entry carries the shifted row number and the absolute
path of an image of that row, and an entry exists for every missing or
mismatching file); both failure categories are reported in the same run
(middle conjuncts: each diagnostic is present exactly when its list is
non-empty, neither suppressing the other); and the scan stage returns
non-zero exactly when at least one of the two lists is non-empty, the run
otherwise moving on to the superfluous-file stage (last two conjuncts). -/
theorem c8_image_checks (pdf : List PRow) (fs : FS) (root : String)
    (hlen : imgLenViol pdf = []) :
    (∀ e, e ∈ missingEntries pdf fs root ↔
      ∃ i, ∃ _ : i < pdf.length,
        ∃ fm ∈ (absFiles root (pdf.getD i default)).zip (pdf.getD i default).md5L,
          fs.imageHash fm.1 = none ∧ e = (i + shiftIndex, fm.1))
    ∧ (∀ e, e ∈ mismatchEntries pdf fs root ↔
      ∃ i, ∃ _ : i < pdf.length,
        ∃ fm ∈ (absFiles root (pdf.getD i default)).zip (pdf.getD i default).md5L,
          ∃ hh, fs.imageHash fm.1 = some hh ∧ hh ≠ fm.2 ∧ e = (i + shiftIndex, fm.1))
    ∧ (Diag.missingImages (missingEntries pdf fs root) ∈ (validate_images pdf fs root).2
        ↔ missingEntries pdf fs root ≠ [])
    ∧ (Diag.md5Mismatch (mismatchEntries pdf fs root) ∈ (validate_images pdf fs root).2
        ↔ mismatchEntries pdf fs root ≠ [])
    ∧ (missingEntries pdf fs root ≠ [] ∨ mismatchEntries pdf fs root ≠ [] →
        (validate_images pdf fs root).1 = 1)
    ∧ (missingEntries pdf fs root = [] → mismatchEntries pdf fs root = [] →
        (validate_images pdf fs root).1
          = if superfluousImagePaths pdf fs root = [] then 0 else 1) := by
  have hv : validate_images pdf fs root =
      (let missing := missingEntries pdf fs root
       let mismatch := mismatchEntries pdf fs root
       let diags1 := (if missing.isEmpty then [] else [Diag.missingImages missing])
         ++ (if mismatch.isEmpty then [] else [Diag.md5Mismatch mismatch])
       if !missing.isEmpty || !mismatch.isEmpty then (1, diags1)
       else
         let superfluous := superfluousImagePaths pdf fs root
         if !superfluous.isEmpty then (1, [Diag.superfluousImages superfluous])
         else (0, [])) := by
    rw [validate_images, hlen]
    rfl
  refine ⟨fun e => missingEntries_mem, fun e => mismatchEntries_mem, ?_⟩
  obtain ⟨MI, hmi⟩ : ∃ x, missingEntries pdf fs root = x := ⟨_, rfl⟩
  obtain ⟨MS, hms⟩ : ∃ x, mismatchEntries pdf fs root = x := ⟨_, rfl⟩
  obtain ⟨SP, hsp⟩ : ∃ x, superfluousImagePaths pdf fs root = x := ⟨_, rfl⟩
  rw [hv, hmi, hms, hsp]
  rcases MI with _ | ⟨a, l⟩ <;> rcases MS with _ | ⟨b, t⟩ <;>
    rcases SP with _ | ⟨c, u⟩ <;> simp

/-- A row listing two images, and a disk state in which the first is missing
and the second has a wrong hash. -/
def imgRow : RRow :=
  { goodRow with imageFiles := "a.png;b.png", captions := "A;B", md5 := "h1;h2" }

def imgPdf : List PRow := [parseRow imgRow]

def imgFS : FS :=
  { mdContent := fun _ => none, allMdPaths := [],
    imageHash := fun p => if p = "/data/b.png" then some "WRONG" else none,
    allImagePaths := [] }

/-- C8 witness: on a row with one missing image and one hash mismatch, both
failure categories are reported in the same run and the stage returns 1. -/
theorem c8_witness :
    (validate_images imgPdf imgFS "/data").1 = 1
    ∧ Diag.missingImages (missingEntries imgPdf imgFS "/data")
        ∈ (validate_images imgPdf imgFS "/data").2
    ∧ Diag.md5Mismatch (mismatchEntries imgPdf imgFS "/data")
        ∈ (validate_images imgPdf imgFS "/data").2 := by
  have h := c8_image_checks imgPdf imgFS "/data" (by decide)
  exact ⟨h.2.2.2.2.1 (Or.inl (by decide)), h.2.2.1.mpr (by decide),
    h.2.2.2.1.mpr (by decide)⟩

/- ## Structure of the per-ORCID loop -/

theorem groupStep_fns (fs : FS) (rows : List (Nat × PRow)) (dir : String)
    (st : GroupState) (o : String) :
    (groupStep fs rows dir st o).fns = st.fns ++ [pyJoin dir (o ++ ".md")] := by
  simp only [groupStep]
  split
  · rfl
  · split
    · rfl
    · split <;> rfl

theorem groupStep_lastPath (fs : FS) (rows : List (Nat × PRow)) (dir : String)
    (st : GroupState) (o : String) :
    (groupStep fs rows dir st o).lastPath = some (pyJoin dir (o ++ ".md")) := by
  simp only [groupStep]
  split
  · rfl
  · split
    · rfl
    · split <;> rfl

theorem groupStep_status_one (fs : FS) (rows : List (Nat × PRow)) (dir : String)
    (st : GroupState) (o : String) (h : st.status = 1) :
    (groupStep fs rows dir st o).status = 1 := by
  simp only [groupStep]
  split
  · rfl
  · split
    · rfl
    · split
      · exact h
      · rfl

theorem groupStep_diags_sub (fs : FS) (rows : List (Nat × PRow)) (dir : String)
    (st : GroupState) (o : String) :
    ∃ d, (groupStep fs rows dir st o).diags = st.diags ++ d
      ∧ ∀ x ∈ d, x = Diag.missingDoc (pyJoin dir (o ++ ".md"))
          ∨ x = Diag.docParseError (pyJoin dir (o ++ ".md"))
          ∨ x = Diag.docMismatch (pyJoin dir (o ++ ".md")) := by
  simp only [groupStep]
  split
  · exact ⟨[Diag.missingDoc (pyJoin dir (o ++ ".md"))], rfl, by simp⟩
  · split
    · exact ⟨[Diag.docParseError (pyJoin dir (o ++ ".md"))], rfl, by simp⟩
    · split
      · exact ⟨[], by simp, by simp⟩
      · exact ⟨[Diag.docMismatch (pyJoin dir (o ++ ".md"))], rfl, by simp⟩

theorem groupStep_missing (fs : FS) (rows : List (Nat × PRow)) (dir : String)
    (st : GroupState) (o : String)
    (h : fs.mdContent (pyJoin dir (o ++ ".md")) = none) :
    (groupStep fs rows dir st o).status = 1
    ∧ Diag.missingDoc (pyJoin dir (o ++ ".md")) ∈ (groupStep fs rows dir st o).diags := by
  simp only [groupStep, h]
  simp

theorem groupStep_triples (fs : FS) (rows : List (Nat × PRow)) (dir : String)
    (st : GroupState) (o : String) :
    (groupStep fs rows dir st o).triples
      = match fs.mdContent (pyJoin dir (o ++ ".md")) with
        | none => st.triples
        | some c => st.triples.filter (fun t =>
            !(subStr (pyBasename t.1) c && subStr t.2.1 c)) := by
  simp only [groupStep]
  split
  · rfl
  · split
    · rfl
    · split <;> rfl

theorem groupStep_success (fs : FS) (rows : List (Nat × PRow)) (dir : String)
    (st : GroupState) (o : String) (c : String) (tbl : List DRow)
    (hc : fs.mdContent (pyJoin dir (o ++ ".md")) = some c)
    (hp : parseSupportingDoc c = some tbl)
    (hm : tables_match tbl (orcidConfigTable rows o) = true) :
    (groupStep fs rows dir st o).status = st.status
    ∧ (groupStep fs rows dir st o).diags = st.diags := by
  simp only [groupStep, hc, hp]
  rw [if_pos hm]
  exact ⟨rfl, rfl⟩

theorem foldGS_fns (fs : FS) (rows : List (Nat × PRow)) (dir : String)
    (l : List String) (st : GroupState) :
    (l.foldl (groupStep fs rows dir) st).fns
      = st.fns ++ l.map (fun o => pyJoin dir (o ++ ".md")) := by
  induction l generalizing st with
  | nil => simp
  | cons o l ih =>
    rw [List.foldl_cons, ih, groupStep_fns]
    simp

theorem foldGS_status_one (fs : FS) (rows : List (Nat × PRow)) (dir : String)
    (l : List String) (st : GroupState) (h : st.status = 1) :
    (l.foldl (groupStep fs rows dir) st).status = 1 := by
  induction l generalizing st with
  | nil => exact h
  | cons o l ih =>
    rw [List.foldl_cons]
    exact ih _ (groupStep_status_one _ _ _ _ _ h)

theorem foldGS_diags_mono (fs : FS) (rows : List (Nat × PRow)) (dir : String)
    (l : List String) (st : GroupState) (x : Diag) (h : x ∈ st.diags) :
    x ∈ (l.foldl (groupStep fs rows dir) st).diags := by
  induction l generalizing st with
  | nil => exact h
  | cons o l ih =>
    rw [List.foldl_cons]
    apply ih
    obtain ⟨d, hd, _⟩ := groupStep_diags_sub fs rows dir st o
    rw [hd]
    exact List.mem_append_left _ h

theorem foldGS_diags_shape (fs : FS) (rows : List (Nat × PRow)) (dir : String)
    (l : List String) (st : GroupState) :
    ∀ x ∈ (l.foldl (groupStep fs rows dir) st).diags,
      x ∈ st.diags ∨ ∃ o ∈ l,
        x = Diag.missingDoc (pyJoin dir (o ++ ".md"))
        ∨ x = Diag.docParseError (pyJoin dir (o ++ ".md"))
        ∨ x = Diag.docMismatch (pyJoin dir (o ++ ".md")) := by
  induction l generalizing st with
  | nil => exact fun x hx => Or.inl hx
  | cons o l ih =>
    intro x hx
    rw [List.foldl_cons] at hx
    rcases ih (groupStep fs rows dir st o) x hx with hin | ⟨o2, ho2, hshape⟩
    · obtain ⟨d, hd, hall⟩ := groupStep_diags_sub fs rows dir st o
      rw [hd] at hin
      rcases List.mem_append.mp hin with h1 | h2
      · exact Or.inl h1
      · exact Or.inr ⟨o, List.mem_cons_self o l, hall x h2⟩
    · exact Or.inr ⟨o2, List.mem_cons_of_mem o ho2, hshape⟩

theorem foldGS_missing (fs : FS) (rows : List (Nat × PRow)) (dir : String)
    (l : List String) (st : GroupState) (o : String) (ho : o ∈ l)
    (hnone : fs.mdContent (pyJoin dir (o ++ ".md")) = none) :
    (l.foldl (groupStep fs rows dir) st).status = 1
    ∧ Diag.missingDoc (pyJoin dir (o ++ ".md"))
        ∈ (l.foldl (groupStep fs rows dir) st).diags := by
  induction l generalizing st with
  | nil => cases ho
  | cons o2 l ih =>
    rw [List.foldl_cons]
    rcases List.mem_cons.mp ho with heq | hmem
    · subst heq
      obtain ⟨hst, hdi⟩ := groupStep_missing fs rows dir st o hnone
      exact ⟨foldGS_status_one fs rows dir l _ hst,
        foldGS_diags_mono fs rows dir l _ _ hdi⟩
    · exact ih _ hmem

theorem foldGS_triples_mem (fs : FS) (rows : List (Nat × PRow)) (dir : String)
    (l : List String) (st : GroupState) (t : String × String × Nat) :
    t ∈ (l.foldl (groupStep fs rows dir) st).triples ↔
      t ∈ st.triples ∧ ∀ o ∈ l, ∀ c,
        fs.mdContent (pyJoin dir (o ++ ".md")) = some c →
        ¬(subStr (pyBasename t.1) c = true ∧ subStr t.2.1 c = true) := by
  induction l generalizing st with
  | nil => simp
  | cons o l ih =>
    rw [List.foldl_cons, ih]
    have ht := groupStep_triples fs rows dir st o
    cases hc : fs.mdContent (pyJoin dir (o ++ ".md")) with
    | none =>
      rw [hc] at ht
      rw [ht]
      constructor
      · rintro ⟨h1, h2⟩
        refine ⟨h1, ?_⟩
        intro o2 ho2 c hco2
        rcases List.mem_cons.mp ho2 with heq | hmem
        · subst heq
          rw [hc] at hco2
          cases hco2
        · exact h2 o2 hmem c hco2
      · rintro ⟨h1, h2⟩
        exact ⟨h1, fun o2 hm c hco2 => h2 o2 (List.mem_cons_of_mem o hm) c hco2⟩
    | some c =>
      rw [hc] at ht
      rw [ht]
      constructor
      · rintro ⟨h1, h2⟩
        rw [List.mem_filter] at h1
        obtain ⟨h1a, h1b⟩ := h1
        refine ⟨h1a, ?_⟩
        intro o2 ho2 c2 hco2
        rcases List.mem_cons.mp ho2 with heq | hmem
        · subst heq
          rw [hc] at hco2
          cases hco2
          intro hcon
          rw [hcon.1, hcon.2] at h1b
          simp at h1b
        · exact h2 o2 hmem c2 hco2
      · rintro ⟨h1, h2⟩
        refine ⟨?_, fun o2 hm c2 hco2 => h2 o2 (List.mem_cons_of_mem o hm) c2 hco2⟩
        rw [List.mem_filter]
        refine ⟨h1, ?_⟩
        have := h2 o (List.mem_cons_self o l) c hc
        cases hb : subStr (pyBasename t.1) c <;> cases hb2 : subStr t.2.1 c <;>
          simp_all

theorem foldGS_success (fs : FS) (rows : List (Nat × PRow)) (dir : String)
    (l : List String) (st : GroupState)
    (h : ∀ o ∈ l, ∃ c tbl, fs.mdContent (pyJoin dir (o ++ ".md")) = some c
      ∧ parseSupportingDoc c = some tbl
      ∧ tables_match tbl (orcidConfigTable rows o) = true) :
    (l.foldl (groupStep fs rows dir) st).status = st.status
    ∧ (l.foldl (groupStep fs rows dir) st).diags = st.diags := by
  induction l generalizing st with
  | nil => exact ⟨rfl, rfl⟩
  | cons o l ih =>
    rw [List.foldl_cons]
    obtain ⟨c, tbl, hc, hp, hm⟩ := h o (List.mem_cons_self o l)
    obtain ⟨hs1, hs2⟩ := groupStep_success fs rows dir st o c tbl hc hp hm
    obtain ⟨hi1, hi2⟩ := ih (groupStep fs rows dir st o)
      (fun o2 hm2 => h o2 (List.mem_cons_of_mem o hm2))
    rw [hi1, hs1, hi2, hs2]
    exact ⟨rfl, rfl⟩

/- ## C7: expected supporting documents -/

theorem foldl_map_replace (L : List Char) (c : Char) (d : List Char) :
    L.foldl (fun l a => l.map (fun ch => if ch = a then c else ch)) d
      = d.map (fun ch => if ch ∈ L then c else ch) := by
  induction L generalizing d with
  | nil => simp
  | cons a L ih =>
    rw [List.foldl_cons, ih, List.map_map]
    apply List.map_congr_left
    intro ch _
    simp only [Function.comp_apply]
    by_cases hch : ch = a
    · subst hch
      simp only [if_pos rfl, List.mem_cons, true_or, if_true]
      by_cases hc : c ∈ L <;> simp [hc]
    · rw [if_neg hch]
      by_cases hl : ch ∈ L
      · simp [hl]
      · have : ch ∉ a :: L := by
          simp only [List.mem_cons]
          rintro (h1 | h2)
          · exact hch h1
          · exact hl h2
        simp [hl, this]

/-- The sequence of single-character `str.replace` calls of
`replace_char_list` equals one simultaneous character map. -/
theorem replace_char_list_eq_map (s : String) (L : List Char) (c : Char) :
    replace_char_list s L c = ⟨s.data.map (fun ch => if ch ∈ L then c else ch)⟩ := by
  rw [replace_char_list, foldl_map_replace]

/-- C7: when the supporting-material validation of one (target, conjugate)
group returns, the validated file list is exactly one expected document per
ORCID of the group, located at `<root>/<sanitized>/<orcid>.md` where the
sanitized directory name replaces every occurrence of the fourteen listed
characters of the target/conjugate pair by an underscore (first two
conjuncts); and every ORCID whose expected document is missing makes the
group fail with a missing-document diagnostic while the remaining ORCIDs of
the group are still checked — their documents all appear in the returned
file list (last conjunct together with the first). -/
theorem c7_expected_documents (g : String × String) (pdf : List PRow)
    (fs : FS) (root : String) (res : List String × Nat × List Diag)
    (h : validate_supporting_material g pdf fs root shiftIndex = .ok res) :
    res.1 = (groupOrcids (tcRows pdf g)).map (docPath root g)
    ∧ (∀ o, docPath root g o
        = pyJoin (pyJoin root ⟨(g.1 ++ "_" ++ g.2).data.map
            (fun ch => if ch ∈ invalid_chars then '_' else ch)⟩) (o ++ ".md"))
    ∧ (∀ o ∈ groupOrcids (tcRows pdf g),
        fs.mdContent (docPath root g o) = none →
          res.2.1 = 1 ∧ Diag.missingDoc (docPath root g o) ∈ res.2.2) := by
  rw [validate_supporting_material] at h
  set st := (groupOrcids (tcRows pdf g)).foldl
    (groupStep fs (tcRows pdf g) (docDirPath root g))
    (initGroupState (tcRows pdf g)) with hst
  have hfns : st.fns = (groupOrcids (tcRows pdf g)).map (docPath root g) := by
    rw [hst, foldGS_fns]
    simp only [initGroupState, List.nil_append]
    rfl
  refine ⟨?_, ?_, ?_⟩
  · by_cases he : st.triples.isEmpty = true
    · rw [if_pos he] at h
      cases h
      exact hfns
    · rw [if_neg he] at h
      cases hlast : st.lastPath with
      | none => rw [hlast] at h; cases h
      | some p =>
        rw [hlast] at h
        cases h
        exact hfns
  · intro o
    rw [docPath, docDirPath, replace_char_list_eq_map]
  · intro o ho hnone
    have hmiss := foldGS_missing fs (tcRows pdf g) (docDirPath root g)
      (groupOrcids (tcRows pdf g)) (initGroupState (tcRows pdf g)) o ho hnone
    rw [← hst] at hmiss
    by_cases he : st.triples.isEmpty = true
    · rw [if_pos he] at h
      cases h
      exact hmiss
    · rw [if_neg he] at h
      cases hlast : st.lastPath with
      | none => rw [hlast] at h; cases h
      | some p =>
        rw [hlast] at h
        cases h
        exact ⟨rfl, List.mem_append_left _ hmiss.2⟩

def emptyFS : FS :=
  { mdContent := fun _ => none, allMdPaths := [],
    imageHash := fun _ => none, allImagePaths := [] }

/-- A row agreed by two ORCIDs. -/
def c7Row : RRow :=
  { goodRow with agree := "0000-0000-0000-0001;0000-0000-0000-0002" }

def c7Res : List String × Nat × List Diag :=
  (["/data/TgtA_ConjB/0000-0000-0000-0001.md",
    "/data/TgtA_ConjB/0000-0000-0000-0002.md"], 1,
   [Diag.missingDoc "/data/TgtA_ConjB/0000-0000-0000-0001.md",
    Diag.missingDoc "/data/TgtA_ConjB/0000-0000-0000-0002.md"])

/-- C7 witness: a group agreed by two ORCIDs with both documents missing —
each expected path is still listed (the loop continues past a missing
document) and each missing document is reported. -/
theorem c7_witness :
    c7Res.1 = (groupOrcids (tcRows [parseRow c7Row] ("TgtA", "ConjB"))).map
      (docPath "/data" ("TgtA", "ConjB"))
    ∧ c7Res.2.1 = 1
    ∧ Diag.missingDoc (docPath "/data" ("TgtA", "ConjB") orcidB) ∈ c7Res.2.2 := by
  have h := c7_expected_documents ("TgtA", "ConjB") [parseRow c7Row] emptyFS
    "/data" c7Res rfl
  have h3 := h.2.2 orcidB (by decide) rfl
  exact ⟨h.1, h3.1, h3.2⟩

/- ## C10: image/caption reference matching -/

theorem splitOnChar_ne_nil (sep : Char) (l : List Char) :
    splitOnChar sep l ≠ [] := by
  cases l with
  | nil => simp [splitOnChar]
  | cons c rest =>
    rw [splitOnChar]
    by_cases hc : c = sep
    · simp [hc]
    · rw [if_neg hc]
      cases splitOnChar sep rest <;> simp

theorem splitOnChar_append (sep : Char) (l1 l2 : List Char) :
    splitOnChar sep (l1 ++ sep :: l2) = splitOnChar sep l1 ++ splitOnChar sep l2 := by
  induction l1 with
  | nil => simp [splitOnChar]
  | cons c l1 ih =>
    rw [List.cons_append, splitOnChar, splitOnChar]
    by_cases hc : c = sep
    · rw [if_pos hc, if_pos hc, ih]
      rfl
    · rw [if_neg hc, if_neg hc, ih]
      obtain ⟨h1, t1, hsp⟩ := List.exists_cons_of_ne_nil (splitOnChar_ne_nil sep l1)
      rw [hsp]
      rfl

theorem splitOnChar_no_sep (sep : Char) (l : List Char)
    (h : ∀ ch ∈ l, ch ≠ sep) : splitOnChar sep l = [l] := by
  induction l with
  | nil => rfl
  | cons c rest ih =>
    rw [splitOnChar]
    rw [if_neg (h c (List.mem_cons_self c rest))]
    rw [ih (fun ch hm => h ch (List.mem_cons_of_mem c hm))]

/-- The directory part of a joined path plays no role in `pyBasename`: the
base name of `dir/f` is `f` whenever `f` is a non-empty final component
without slashes. -/
theorem pyBasename_pyJoin (dir f : String) (hne : f ≠ "")
    (hsl : ∀ ch ∈ f.data, ch ≠ '/') :
    pyBasename (pyJoin dir f) = f := by
  have hfd : f.data ≠ [] := by
    intro hcon
    exact hne (by cases f; simp_all)
  have hjoin : pyJoin dir f = dir ++ "/" ++ f := by
    rw [pyJoin]
    cases hd : f.data with
    | nil => exact absurd hd hfd
    | cons c rest =>
      have hcne := hsl c (by rw [hd]; exact List.mem_cons_self c rest)
      split
      · rename_i heq
        injection heq with h1 h2
        exact absurd h1 hcne
      · rfl
  rw [hjoin, pyBasename, pySplit]
  have hdata : (dir ++ "/" ++ f).data = dir.data ++ '/' :: f.data := by
    show (dir.data ++ '/' :: []) ++ f.data = dir.data ++ '/' :: f.data
    rw [List.append_assoc]
    rfl
  rw [hdata, splitOnChar_append, splitOnChar_no_sep '/' f.data hsl]
  rw [List.map_append, List.filter_append]
  have hstr : ((⟨f.data⟩ : String)) = f := rfl
  have hone : List.filter (fun c => c ≠ "") (List.map (fun l => ((⟨l⟩ : String))) [f.data])
      = [f] := by
    simp only [List.map_cons, List.map_nil, hstr]
    simp [hne]
  rw [hone]
  exact List.getLastD_concat _ _ _

/-- C10: an (image file, caption, row) triple of a (target, conjugate) group
is reported as unreferenced exactly when no existing supporting document of
the group contains both the final path component of the file name and the
caption as substrings of its raw text (first two conjuncts); and the
directory portion of the stored image path plays no role: the base name of
`dir/f` is `f` itself for any slash-free final component `f` (last
conjunct). -/
theorem c10_reference_matching (g : String × String) (pdf : List PRow)
    (fs : FS) (root : String) (res : List String × Nat × List Diag)
    (h : validate_supporting_material g pdf fs root shiftIndex = .ok res) :
    (∀ f cap n d, Diag.imageNotReferenced f cap n d ∈ res.2.2 →
      ∃ j, n = j + shiftIndex ∧ (f, cap, j) ∈ groupTriples (tcRows pdf g) ∧
        ¬ ∃ o ∈ groupOrcids (tcRows pdf g), ∃ c,
            fs.mdContent (docPath root g o) = some c ∧
            subStr (pyBasename f) c = true ∧ subStr cap c = true)
    ∧ (∀ t ∈ groupTriples (tcRows pdf g),
        (¬ ∃ o ∈ groupOrcids (tcRows pdf g), ∃ c,
            fs.mdContent (docPath root g o) = some c ∧
            subStr (pyBasename t.1) c = true ∧ subStr t.2.1 c = true) →
        ∃ d, Diag.imageNotReferenced t.1 t.2.1 (t.2.2 + shiftIndex) d ∈ res.2.2)
    ∧ (∀ dir f2, f2 ≠ "" → (∀ ch ∈ f2.data, ch ≠ '/') →
        pyBasename (pyJoin dir f2) = f2) := by
  rw [validate_supporting_material] at h
  set rows := tcRows pdf g with hrows
  set orcids := groupOrcids rows with horcids
  set dir := docDirPath root g with hdir
  set st0 : GroupState := initGroupState rows with hst0
  set st := orcids.foldl (groupStep fs rows dir) st0 with hst
  have hdp : ∀ o : String, docPath root g o = pyJoin dir (o ++ ".md") := fun o => rfl
  have htr : ∀ t : String × String × Nat, t ∈ st.triples ↔
      t ∈ groupTriples rows ∧ ∀ o ∈ orcids, ∀ c,
        fs.mdContent (pyJoin dir (o ++ ".md")) = some c →
        ¬(subStr (pyBasename t.1) c = true ∧ subStr t.2.1 c = true) := by
    intro t
    rw [hst, foldGS_triples_mem]
    exact Iff.rfl
  have hcond : ∀ t : String × String × Nat,
      (∀ o ∈ orcids, ∀ c, fs.mdContent (pyJoin dir (o ++ ".md")) = some c →
        ¬(subStr (pyBasename t.1) c = true ∧ subStr t.2.1 c = true)) ↔
      ¬ ∃ o ∈ orcids, ∃ c, fs.mdContent (docPath root g o) = some c ∧
          subStr (pyBasename t.1) c = true ∧ subStr t.2.1 c = true := by
    intro t
    constructor
    · rintro hall ⟨o, ho, c, hc, hb1, hb2⟩
      exact hall o ho c (by rw [← hdp]; exact hc) ⟨hb1, hb2⟩
    · intro hne o ho c hc hcontra
      exact hne ⟨o, ho, c, by rw [hdp]; exact hc, hcontra.1, hcontra.2⟩
  have hshape : ∀ x ∈ st.diags, ∀ f cap n d, x ≠ Diag.imageNotReferenced f cap n d := by
    intro x hx f cap n d
    rcases foldGS_diags_shape fs rows dir orcids st0 x hx with h0 | ⟨o, _, hs⟩
    · rw [hst0] at h0
      simp [initGroupState] at h0
    · rcases hs with hs | hs | hs <;> (rw [hs]; intro hcon; cases hcon)
  refine ⟨?_, ?_, fun d2 f2 hne hsl => pyBasename_pyJoin d2 f2 hne hsl⟩
  · intro f cap n d hmem
    by_cases he : st.triples.isEmpty = true
    · rw [if_pos he] at h
      cases h
      exact absurd rfl (hshape _ hmem f cap n d)
    · rw [if_neg he] at h
      cases hlast : st.lastPath with
      | none => rw [hlast] at h; cases h
      | some p =>
        rw [hlast] at h
        cases h
        rcases List.mem_append.mp hmem with hin | hin
        · exact absurd rfl (hshape _ hin f cap n d)
        · obtain ⟨t, ht, heq⟩ := List.mem_map.mp hin
          have hf : t.1 = f := by cases heq; rfl
          have hcap : t.2.1 = cap := by cases heq; rfl
          have hn : t.2.2 + shiftIndex = n := by cases heq; rfl
          obtain ⟨htg, hunm⟩ := (htr t).mp ht
          refine ⟨t.2.2, hn.symm, ?_, ?_⟩
          · have : (f, cap, t.2.2) = t := by
              rw [← hf, ← hcap]
            rw [this]
            exact htg
          · rw [← hf, ← hcap]
            exact (hcond t).mp hunm
  · intro t htg hunm
    have hts : t ∈ st.triples := (htr t).mpr ⟨htg, (hcond t).mpr hunm⟩
    by_cases he : st.triples.isEmpty = true
    · rw [List.isEmpty_iff] at he
      rw [he] at hts
      cases hts
    · rw [if_neg he] at h
      cases hlast : st.lastPath with
      | none => rw [hlast] at h; cases h
      | some p =>
        rw [hlast] at h
        cases h
        exact ⟨p, List.mem_append_right _ (List.mem_map_of_mem _ hts)⟩

/-- A row listing one image under a subdirectory and one bare image. -/
def c10Row : RRow :=
  { goodRow with
      imageFiles := "sub/dir/x.png;y.png"
      captions := "CapX;CapY"
      md5 := "h1;h2" }

def c10Doc : String := "see x.png and CapX"

def c10Path : String := "/data/TgtA_ConjB/0000-0000-0000-0001.md"

def c10FS : FS :=
  { mdContent := fun p => if p = c10Path then some c10Doc else none,
    allMdPaths := [c10Path], imageHash := fun _ => none, allImagePaths := [] }

def c10Res : List String × Nat × List Diag :=
  ([c10Path], 1,
   [Diag.docParseError c10Path,
    Diag.imageNotReferenced "y.png" "CapY" 2 c10Path])

/-- C10 witness: the document mentions only the bare file name `x.png`, yet
the triple stored with directory `sub/dir/x.png` is matched and removed; the
unmatched `y.png` triple is reported with its shifted row number, and no
document of the group references it. -/
theorem c10_witness :
    (∃ j, (2 : Nat) = j + shiftIndex
      ∧ ("y.png", "CapY", j) ∈ groupTriples (tcRows [parseRow c10Row] ("TgtA", "ConjB"))
      ∧ ¬ ∃ o ∈ groupOrcids (tcRows [parseRow c10Row] ("TgtA", "ConjB")), ∃ c,
            c10FS.mdContent (docPath "/data" ("TgtA", "ConjB") o) = some c ∧
            subStr (pyBasename "y.png") c = true ∧ subStr "CapY" c = true)
    ∧ pyBasename (pyJoin "/data/TgtA_ConjB" "x.png") = "x.png" := by
  have h := c10_reference_matching ("TgtA", "ConjB") [parseRow c10Row] c10FS
    "/data" c10Res rfl
  exact ⟨h.1 "y.png" "CapY" 2 c10Path (by decide),
    h.2.2 "/data/TgtA_ConjB" "x.png" (by decide) (by decide)⟩

/- ## C5: the concat-and-deduplicate table comparison -/

theorem rowLookup_eq_none {r : DRow} {k : String} (h : k ∉ r.map Prod.fst) :
    rowLookup r k = none := by
  rw [rowLookup, List.find?_eq_none.mpr]
  · rfl
  · intro p hp
    simp only [beq_iff_eq]
    intro hcon
    exact h (by rw [← hcon]; exact List.mem_map_of_mem _ hp)

theorem rowEquivB_iff {r1 r2 : DRow} :
    rowEquivB r1 r2 = true ↔ ∀ k, rowLookup r1 k = rowLookup r2 k := by
  rw [rowEquivB, List.all_eq_true]
  constructor
  · intro h k
    by_cases hk : k ∈ (r1 ++ r2).map Prod.fst
    · have := h k hk
      exact beq_iff_eq.mp this
    · rw [List.map_append, List.mem_append] at hk
      push_neg at hk
      rw [rowLookup_eq_none hk.1, rowLookup_eq_none hk.2]
  · intro h k _
    exact beq_iff_eq.mpr (h k)

theorem rowEquivB_refl (r : DRow) : rowEquivB r r = true :=
  rowEquivB_iff.mpr (fun _ => rfl)

theorem rowEquivB_symm {r1 r2 : DRow} (h : rowEquivB r1 r2 = true) :
    rowEquivB r2 r1 = true :=
  rowEquivB_iff.mpr (fun k => (rowEquivB_iff.mp h k).symm)

theorem rowEquivB_trans {r1 r2 r3 : DRow} (h1 : rowEquivB r1 r2 = true)
    (h2 : rowEquivB r2 r3 = true) : rowEquivB r1 r3 = true :=
  rowEquivB_iff.mpr (fun k => (rowEquivB_iff.mp h1 k).trans (rowEquivB_iff.mp h2 k))

theorem rowEquivB_false_symm {r1 r2 : DRow} (h : rowEquivB r1 r2 = false) :
    rowEquivB r2 r1 = false := by
  cases hb : rowEquivB r2 r1 with
  | false => rfl
  | true => rw [rowEquivB_symm hb] at h; cases h

theorem dedupByRAux_fresh (A : List DRow)
    (hA : A.Pairwise (fun a b => rowEquivB a b = false)) :
    ∀ seen : List DRow, (∀ a ∈ A, ∀ s ∈ seen, rowEquivB s a = false) →
      dedupByRAux rowEquivB seen A = A := by
  induction A with
  | nil => intro seen _; rfl
  | cons a A ih =>
    intro seen hfresh
    rw [dedupByRAux]
    have hany : seen.any (fun b => rowEquivB b a) = false := by
      rw [List.any_eq_false]
      intro s hs
      rw [hfresh a (List.mem_cons_self a A) s hs]
      simp
    rw [hany]
    simp only [Bool.false_eq_true, if_false]
    congr 1
    apply ih (List.Pairwise.of_cons hA)
    intro a2 ha2 s hs
    rcases List.mem_append.mp hs with hs1 | hs2
    · exact hfresh a2 (List.mem_cons_of_mem a ha2) s hs1
    · have hsa : s = a := by simpa using hs2
      subst hsa
      exact (List.pairwise_cons.mp hA).1 a2 ha2

theorem dedupByRAux_vanish (B : List DRow) :
    ∀ seen : List DRow, (∀ b ∈ B, ∃ s ∈ seen, rowEquivB s b = true) →
      dedupByRAux rowEquivB seen B = [] := by
  induction B with
  | nil => intro seen _; rfl
  | cons b B ih =>
    intro seen hall
    rw [dedupByRAux]
    have hany : seen.any (fun s => rowEquivB s b) = true := by
      rw [List.any_eq_true]
      obtain ⟨s, hs, hr⟩ := hall b (List.mem_cons_self b B)
      exact ⟨s, hs, hr⟩
    rw [hany]
    simp only [if_true]
    apply ih
    intro b2 hb2
    obtain ⟨s, hs, hr⟩ := hall b2 (List.mem_cons_of_mem b hb2)
    exact ⟨s, List.mem_append_left _ hs, hr⟩

theorem dedupByRAux_vanish_rev (A : List DRow) (B : List DRow) :
    ∀ seen : List DRow, (∀ s ∈ seen, ∃ a ∈ A, rowEquivB a s = true) →
      dedupByRAux rowEquivB seen B = [] →
      ∀ b ∈ B, ∃ a ∈ A, rowEquivB a b = true := by
  induction B with
  | nil => intro seen _ _ b hb; cases hb
  | cons b B ih =>
    intro seen hseen hded b2 hb2
    rw [dedupByRAux] at hded
    cases hany : seen.any (fun s => rowEquivB s b) with
    | false => rw [hany] at hded; simp at hded
    | true =>
      rw [hany] at hded
      simp only [if_true] at hded
      obtain ⟨s, hs, hr⟩ := List.any_eq_true.mp hany
      obtain ⟨a, ha, har⟩ := hseen s hs
      have hab : rowEquivB a b = true := rowEquivB_trans har hr
      have hseen2 : ∀ s2 ∈ seen ++ [b], ∃ a ∈ A, rowEquivB a s2 = true := by
        intro s2 hs2
        rcases List.mem_append.mp hs2 with h1 | h2
        · exact hseen s2 h1
        · have : s2 = b := by simpa using h2
          subst this
          exact ⟨a, ha, hab⟩
      rcases List.mem_cons.mp hb2 with heq | hmem
      · subst heq
        exact ⟨a, ha, hab⟩
      · exact ih (seen ++ [b]) hseen2 hded b2 hmem

theorem dedupByRAux_append (A B : List DRow) :
    ∀ seen : List DRow,
      dedupByRAux rowEquivB seen (A ++ B)
        = dedupByRAux rowEquivB seen A ++ dedupByRAux rowEquivB (seen ++ A) B := by
  induction A with
  | nil => intro seen; rw [List.nil_append, dedupByRAux, List.append_nil]; rfl
  | cons a A ih =>
    intro seen
    rw [List.cons_append, dedupByRAux, dedupByRAux]
    have hassoc : seen ++ a :: A = (seen ++ [a]) ++ A := by simp
    cases hany : seen.any (fun s => rowEquivB s a) with
    | true =>
      simp only [if_true]
      rw [ih (seen ++ [a]), hassoc]
    | false =>
      simp only [Bool.false_eq_true, if_false]
      rw [ih (seen ++ [a]), hassoc]
      rfl

/-- The representative in `X` that `find?` selects for a row matched in `X`. -/
theorem findRep_spec (X : List DRow) (y : DRow)
    (h : ∃ x ∈ X, rowEquivB x y = true) :
    ((X.find? (fun x => rowEquivB x y)).getD []) ∈ X
    ∧ rowEquivB ((X.find? (fun x => rowEquivB x y)).getD []) y = true := by
  obtain ⟨x, hx, hr⟩ := h
  have hsome : (X.find? (fun x => rowEquivB x y)).isSome := by
    rw [List.find?_isSome]
    exact ⟨x, hx, hr⟩
  obtain ⟨x2, hx2⟩ := Option.isSome_iff_exists.mp hsome
  rw [hx2]
  simp only [Option.getD_some]
  have hp := List.find?_some hx2
  exact ⟨List.mem_of_find?_eq_some hx2, hp⟩

theorem pairwiseNE_nodup {X : List DRow}
    (hX : X.Pairwise (fun a b => rowEquivB a b = false)) : X.Nodup := by
  refine hX.imp ?_
  intro a b h hcon
  subst hcon
  rw [rowEquivB_refl] at h
  cases h

/-- Counting: if every row of `Y` has an equivalent in `X` and both lists are
duplicate-free up to row equivalence, `Y` is no longer than `X`. -/
theorem rowlist_card_le (X Y : List DRow)
    (hX : X.Pairwise (fun a b => rowEquivB a b = false))
    (hY : Y.Pairwise (fun a b => rowEquivB a b = false))
    (hdom : ∀ y ∈ Y, ∃ x ∈ X, rowEquivB x y = true) : Y.length ≤ X.length := by
  classical
  have hXN := pairwiseNE_nodup hX
  have hYN := pairwiseNE_nodup hY
  have hsymm : Symmetric (fun a b : DRow => rowEquivB a b = false) :=
    fun a b h => rowEquivB_false_symm h
  set φ : DRow → DRow := fun y => (X.find? (fun x => rowEquivB x y)).getD []
    with hφ
  have hmaps : ∀ y ∈ Y.toFinset, φ y ∈ X.toFinset := by
    intro y hy
    rw [List.mem_toFinset] at hy ⊢
    exact (findRep_spec X y (hdom y hy)).1
  have hinjOn : Set.InjOn φ Y.toFinset := by
    intro y1 hy1 y2 hy2 heq
    rw [Finset.mem_coe, List.mem_toFinset] at hy1 hy2
    by_contra hne
    obtain ⟨_, h1b⟩ := findRep_spec X y1 (hdom y1 hy1)
    obtain ⟨_, h2b⟩ := findRep_spec X y2 (hdom y2 hy2)
    have htr : rowEquivB y1 y2 = true := by
      apply rowEquivB_trans (rowEquivB_symm h1b)
      have : φ y1 = φ y2 := heq
      rw [hφ] at this
      simp only at this
      rw [this]
      exact h2b
    have hfa : rowEquivB y1 y2 = false := hY.forall hsymm hy1 hy2 hne
    rw [hfa] at htr
    cases htr
  calc Y.length = Y.toFinset.card := (List.toFinset_card_of_nodup hYN).symm
    _ ≤ X.toFinset.card := Finset.card_le_card_of_injOn φ hmaps hinjOn
    _ = X.length := List.toFinset_card_of_nodup hXN

/-- C5 amended: provided each of the two tables contains no two equivalent
rows, the comparison of lines 483-490 (equal lengths, and concatenation
followed by duplicate dropping keeps the length) succeeds exactly when the
tables are equal as unordered sets of rows — every row of one table has an
equivalent row in the other, where row equivalence is column-name-keyed and
hence independent of row order and column order.  (Without the
duplicate-freedom proviso the equivalence fails in both directions, see the
counterexample.) -/
theorem c5_amended (A B : List DRow)
    (hA : A.Pairwise (fun a b => rowEquivB a b = false))
    (hB : B.Pairwise (fun a b => rowEquivB a b = false)) :
    tables_match A B = true ↔
      ((∀ b ∈ B, ∃ a ∈ A, rowEquivB a b = true)
        ∧ (∀ a ∈ A, ∃ b ∈ B, rowEquivB b a = true)) := by
  classical
  have hdedupA : dedupByRAux rowEquivB [] A = A :=
    dedupByRAux_fresh A hA [] (by intro a _ s hs; cases hs)
  have hmain : tables_match A B = true ↔
      (A.length = B.length ∧ dedupByRAux rowEquivB A B = []) := by
    rw [tables_match, Bool.and_eq_true, beq_iff_eq, beq_iff_eq]
    rw [dedupByR, dedupByRAux_append, hdedupA, List.nil_append]
    rw [List.length_append]
    constructor
    · rintro ⟨h1, h2⟩
      refine ⟨h1, ?_⟩
      rw [← List.length_eq_zero]
      omega
    · rintro ⟨h1, h2⟩
      rw [h2]
      simp [h1]
  rw [hmain]
  constructor
  · rintro ⟨hlen, hded⟩
    have hdom1 : ∀ b ∈ B, ∃ a ∈ A, rowEquivB a b = true :=
      dedupByRAux_vanish_rev A B A
        (fun s hs => ⟨s, hs, rowEquivB_refl s⟩) hded
    refine ⟨hdom1, ?_⟩
    have hXN := pairwiseNE_nodup hA
    have hYN := pairwiseNE_nodup hB
    have hsymm : Symmetric (fun a b : DRow => rowEquivB a b = false) :=
      fun a b h => rowEquivB_false_symm h
    set φ : DRow → DRow := fun y => (A.find? (fun x => rowEquivB x y)).getD []
      with hφ
    have hmaps : ∀ y ∈ B.toFinset, φ y ∈ A.toFinset := by
      intro y hy
      rw [List.mem_toFinset] at hy ⊢
      exact (findRep_spec A y (hdom1 y hy)).1
    have hinjOn : Set.InjOn φ B.toFinset := by
      intro y1 hy1 y2 hy2 heq
      rw [Finset.mem_coe, List.mem_toFinset] at hy1 hy2
      by_contra hne
      obtain ⟨_, h1b⟩ := findRep_spec A y1 (hdom1 y1 hy1)
      obtain ⟨_, h2b⟩ := findRep_spec A y2 (hdom1 y2 hy2)
      have htr : rowEquivB y1 y2 = true := by
        apply rowEquivB_trans (rowEquivB_symm h1b)
        have heq2 : φ y1 = φ y2 := heq
        rw [hφ] at heq2
        simp only at heq2
        rw [heq2]
        exact h2b
      have hfa : rowEquivB y1 y2 = false := hB.forall hsymm hy1 hy2 hne
      rw [hfa] at htr
      cases htr
    have himage : Finset.image φ B.toFinset = A.toFinset := by
      apply Finset.eq_of_subset_of_card_le
      · intro x hx
        obtain ⟨y, hy, hyx⟩ := Finset.mem_image.mp hx
        rw [← hyx]
        exact hmaps y hy
      · rw [Finset.card_image_of_injOn hinjOn]
        rw [List.toFinset_card_of_nodup hXN, List.toFinset_card_of_nodup hYN]
        omega
    intro a ha
    have hain : a ∈ Finset.image φ B.toFinset := by
      rw [himage, List.mem_toFinset]
      exact ha
    obtain ⟨b, hb, hba⟩ := Finset.mem_image.mp hain
    rw [List.mem_toFinset] at hb
    obtain ⟨_, hrep⟩ := findRep_spec A b (hdom1 b hb)
    have : rowEquivB a b = true := by
      rw [← hba]
      rw [hφ]
      simp only
      exact hrep
    exact ⟨b, hb, rowEquivB_symm this⟩
  · rintro ⟨hdom1, hdom2⟩
    have hle1 : B.length ≤ A.length := rowlist_card_le A B hA hB hdom1
    have hle2 : A.length ≤ B.length := rowlist_card_le B A hB hA hdom2
    refine ⟨by omega, ?_⟩
    exact dedupByRAux_vanish B A hdom1

def r0c5 : DRow := csvConfigRow (parseRow goodRow)

/-- The same configuration row with its columns listed in another order. -/
def r0c5perm : DRow :=
  [("Conjugate", .cstr "ConjB"),
   ("Target Name / Protein Biomarker", .cstr "TgtA"),
   ("Vendor", .cstr "VendorX"),
   ("Contributor", .cstr orcidA),
   ("Agree", .cset ({orcidA} : Finset String)),
   ("Disagree", .cset (∅ : Finset String))]

/-- C5 counterexample: the claim states that the comparison succeeds if and
only if the two tables are equal as unordered sets of rows.  Two tables that
both repeat the same row twice are equal as unordered sets of rows (every
row of each has an equivalent in the other), yet the
concatenate-and-deduplicate comparison rejects them: dropping duplicates
collapses all four copies to one row, so the deduplicated length 1 differs
from the table length 2. -/
theorem c5_counterexample :
    tables_match [r0c5, r0c5] [r0c5, r0c5] = false
    ∧ (∀ b ∈ ([r0c5, r0c5] : List DRow), ∃ a ∈ ([r0c5, r0c5] : List DRow),
        rowEquivB a b = true)
    ∧ (∀ a ∈ ([r0c5, r0c5] : List DRow), ∃ b ∈ ([r0c5, r0c5] : List DRow),
        rowEquivB b a = true) := by
  refine ⟨by decide, ?_, ?_⟩
  · intro b hb
    refine ⟨r0c5, by decide, ?_⟩
    rcases List.mem_cons.mp hb with h | h
    · rw [h]; decide
    · have : b = r0c5 := by simpa using h
      rw [this]; decide
  · intro a ha
    refine ⟨r0c5, by decide, ?_⟩
    rcases List.mem_cons.mp ha with h | h
    · rw [h]; decide
    · have : a = r0c5 := by simpa using h
      rw [this]; decide

/-- C5 witness: two duplicate-free one-row tables whose single rows list the
same columns in different orders are accepted by the comparison, and the
amended theorem yields the mutual row-domination. -/
theorem c5_witness :
    (∀ b ∈ ([r0c5perm] : List DRow), ∃ a ∈ ([r0c5] : List DRow),
        rowEquivB a b = true)
    ∧ (∀ a ∈ ([r0c5] : List DRow), ∃ b ∈ ([r0c5perm] : List DRow),
        rowEquivB b a = true) :=
  (c5_amended [r0c5] [r0c5perm] (by decide) (by decide)).mp (by decide)

/- ## C9: row-number reporting -/

/-- The row numbers printed inside one diagnostic block. -/
def diagRowNums : Diag → List Nat
  | .emptyCells cells => (cells.map Prod.snd).flatten
  | .duplicateRows gs => gs.flatten
  | .contributorMissing rs => rs
  | .tooManyOrcids rs => rs
  | .imageCountMismatch rs => rs
  | .missingImages es => es.map Prod.fst
  | .md5Mismatch es => es.map Prod.fst
  | .imageNotReferenced _ _ n _ => [n]
  | _ => []

theorem enumShiftP_mem {α : Type} (P : α → Prop) [DecidablePred P] {l : List α}
    {n : Nat} :
    n ∈ l.enum.filterMap (fun p => if P p.2 then some (p.1 + shiftIndex) else none)
      ↔ ∃ i, ∃ h : i < l.length, n = i + shiftIndex ∧ P l[i] := by
  simp only [List.mem_filterMap]
  constructor
  · rintro ⟨⟨j, r⟩, hmem, hf⟩
    rw [List.mem_enum_iff_getElem?] at hmem
    obtain ⟨hj, hr⟩ := List.getElem?_eq_some.mp hmem
    have hr2 : l[j] = r := hr
    by_cases hp : P r
    · rw [if_pos hp, Option.some_inj] at hf
      exact ⟨j, hj, hf.symm, by rw [hr2]; exact hp⟩
    · rw [if_neg hp] at hf
      cases hf
  · rintro ⟨i, h, hn, hp⟩
    refine ⟨(i, l[i]), ?_, by rw [if_pos hp, hn]⟩
    rw [List.mem_enum_iff_getElem?]
    exact List.getElem?_eq_some.mpr ⟨h, rfl⟩

theorem emptyCellReport_sound {df : List RRow} {c : String} {ns : List Nat}
    (h : (c, ns) ∈ emptyCellReport df) :
    ∀ n ∈ ns, ∃ i, ∃ _ : i < df.length,
      n = i + shiftIndex ∧ pyStrip ((getCol (df.getD i default) c).getD "") = "" := by
  rw [emptyCellReport, List.mem_filterMap] at h
  obtain ⟨c2, _, hf⟩ := h
  by_cases hrows : (df.enum.filterMap (fun q =>
      if pyStrip ((getCol q.2 c2).getD "") = "" then some (q.1 + shiftIndex)
      else none)).isEmpty = true
  · rw [if_pos hrows] at hf
    cases hf
  · rw [if_neg hrows, Option.some_inj] at hf
    obtain ⟨hc, hns⟩ := Prod.mk.injEq .. ▸ hf
    intro n hn
    rw [← hns] at hn
    obtain ⟨i, hi, hn2, hp⟩ :=
      (enumShiftP_mem (fun r => pyStrip ((getCol r c2).getD "") = "")).mp hn
    refine ⟨i, hi, hn2, ?_⟩
    rw [List.getD_eq_getElem df default hi, ← hc]
    exact hp

theorem dupIdxs_length (df : List RRow) (k : List String) :
    ∀ n : Nat, ((List.enumFrom n df).filterMap
        (fun q => if dupKey q.2 == k then some q.1 else none)).length
      = (df.map dupKey).count k := by
  induction df with
  | nil => intro n; rfl
  | cons r df ih =>
    intro n
    rw [List.enumFrom_cons, List.filterMap_cons, List.map_cons, List.count_cons]
    by_cases hk : dupKey r == k
    · rw [if_pos hk]
      simp only [List.length_cons, ih (n + 1)]
      rw [if_pos (by simpa using hk)]
    · rw [if_neg hk]
      rw [ih (n + 1)]
      rw [if_neg (by simpa using hk)]
      omega

theorem dupGroups_sound {df : List RRow} {g : List Nat} (hg : g ∈ dupGroups df) :
    ∀ i ∈ g, ∃ _ : i < df.length,
      2 ≤ (df.map dupKey).count (dupKey (df.getD i default)) := by
  rw [dupGroups, List.mem_filterMap] at hg
  obtain ⟨k, _, hf⟩ := hg
  by_cases hlen : 2 ≤ (df.enum.filterMap
      (fun q => if dupKey q.2 == k then some q.1 else none)).length
  · rw [if_pos hlen, Option.some_inj] at hf
    intro i hi
    rw [← hf, List.mem_filterMap] at hi
    obtain ⟨⟨j, r⟩, hmem, hif⟩ := hi
    rw [List.mem_enum_iff_getElem?] at hmem
    obtain ⟨hj, hr⟩ := List.getElem?_eq_some.mp hmem
    have hr2 : df[j] = r := hr
    by_cases hk : dupKey r == k
    · rw [if_pos hk, Option.some_inj] at hif
      subst hif
      refine ⟨hj, ?_⟩
      have hkk : dupKey (df.getD j default) = k := by
        rw [List.getD_eq_getElem df default hj, hr2]
        exact beq_iff_eq.mp hk
      rw [hkk]
      have := dupIdxs_length df k 0
      rw [List.enum] at hlen
      omega
    · rw [if_neg hk] at hif
      cases hif
  · rw [if_neg hlen] at hf
    cases hf

theorem tcRows_sound {pdf : List PRow} {g : String × String} {q : Nat × PRow}
    (h : q ∈ tcRows pdf g) :
    ∃ _ : q.1 < pdf.length, pdf[q.1] = q.2 := by
  rw [tcRows, List.mem_filter] at h
  have hmem := h.1
  rw [List.mem_enum_iff_getElem?] at hmem
  exact List.getElem?_eq_some.mp hmem

theorem groupTriples_sound {rows : List (Nat × PRow)} {t : String × String × Nat}
    (h : t ∈ groupTriples rows) :
    ∃ q ∈ rows, t.2.2 = q.1 ∧ t.1 ∈ q.2.imagesL := by
  rw [groupTriples, List.mem_flatten] at h
  obtain ⟨l, hl, hm⟩ := h
  rw [List.mem_map] at hl
  obtain ⟨q, hq, hlq⟩ := hl
  rw [← hlq, List.mem_map] at hm
  obtain ⟨fc, hfc, hft⟩ := hm
  refine ⟨q, hq, ?_, ?_⟩
  · rw [← hft]
  · rw [← hft]
    simp only
    exact (List.of_mem_zip hfc).1

theorem mapM_ok_mem {α β : Type} (F : α → Except String β) :
    ∀ (l : List α) (out : List β), l.mapM F = .ok out →
      ∀ b ∈ out, ∃ a ∈ l, F a = .ok b := by
  intro l
  induction l with
  | nil =>
    intro out h b hb
    have : out = [] := by
      simp only [List.mapM_nil] at h
      cases h
      rfl
    rw [this] at hb
    cases hb
  | cons a l ih =>
    intro out h b hb
    rw [List.mapM_cons] at h
    cases hFa : F a with
    | error e =>
      rw [hFa] at h
      have h3 : (Except.error e : Except String (List β)) = .ok out := h
      cases h3
    | ok v =>
      rw [hFa] at h
      have h2 : (l.mapM F >>= fun xs => (pure (v :: xs) : Except String (List β)))
          = .ok out := h
      cases hMl : l.mapM F with
      | error e =>
        rw [hMl] at h2
        have h3 : (Except.error e : Except String (List β)) = .ok out := h2
        cases h3
      | ok vs =>
        rw [hMl] at h2
        have h3 : (Except.ok (v :: vs) : Except String (List β)) = .ok out := h2
        cases h3
        rcases List.mem_cons.mp hb with heq | hmem
        · subst heq
          exact ⟨a, List.mem_cons_self a l, hFa⟩
        · obtain ⟨a2, ha2, hFa2⟩ := ih vs hMl b hmem
          exact ⟨a2, List.mem_cons_of_mem a ha2, hFa2⟩

theorem except_ok_bind {α β : Type} (v : α) (k : α → Except String β) :
    (Except.ok v >>= k) = k v := rfl

theorem vsm_diag_sound (g : String × String) (pdf : List PRow) (fs : FS)
    (root : String) (res : List String × Nat × List Diag)
    (h : validate_supporting_material g pdf fs root shiftIndex = .ok res) :
    ∀ d ∈ res.2.2,
      (∃ p, d = Diag.missingDoc p ∨ d = Diag.docParseError p ∨ d = Diag.docMismatch p)
      ∨ (∃ f cap j doc, d = Diag.imageNotReferenced f cap (j + shiftIndex) doc
          ∧ ∃ _ : j < pdf.length, f ∈ pdf[j].imagesL) := by
  rw [validate_supporting_material] at h
  set rows := tcRows pdf g with hrows
  set orcids := groupOrcids rows with horcids
  set dir := docDirPath root g with hdir
  set st0 : GroupState := initGroupState rows with hst0
  set st := orcids.foldl (groupStep fs rows dir) st0 with hst
  have hstdiag : ∀ x ∈ st.diags, ∃ p, x = Diag.missingDoc p
      ∨ x = Diag.docParseError p ∨ x = Diag.docMismatch p := by
    intro x hx
    rcases foldGS_diags_shape fs rows dir orcids st0 x hx with h0 | ⟨o, _, hs⟩
    · rw [hst0] at h0
      simp [initGroupState] at h0
    · exact ⟨pyJoin dir (o ++ ".md"), hs⟩
  have htripix : ∀ t ∈ st.triples, ∃ _ : t.2.2 < pdf.length, t.1 ∈ pdf[t.2.2].imagesL := by
    intro t ht
    have h1 := ((foldGS_triples_mem fs rows dir orcids st0 t).mp ht).1
    have h2 : t ∈ groupTriples rows := h1
    obtain ⟨q, hq, hidx, hf⟩ := groupTriples_sound h2
    obtain ⟨hlt, hgq⟩ := tcRows_sound hq
    have hlt2 : t.2.2 < pdf.length := by rw [hidx]; exact hlt
    refine ⟨hlt2, ?_⟩
    have hget : pdf[t.2.2] = q.2 := by
      have h12 : pdf[t.2.2] = pdf[q.1] := by
        congr 1
      rw [h12, hgq]
    rw [hget]
    exact hf
  intro d hd
  by_cases he : st.triples.isEmpty = true
  · rw [if_pos he] at h
    cases h
    exact Or.inl (hstdiag d hd)
  · rw [if_neg he] at h
    cases hlast : st.lastPath with
    | none => rw [hlast] at h; cases h
    | some p =>
      rw [hlast] at h
      cases h
      rcases List.mem_append.mp hd with h1 | h2
      · exact Or.inl (hstdiag d h1)
      · obtain ⟨t, ht, hdt⟩ := List.mem_map.mp h2
        obtain ⟨hlt, hf⟩ := htripix t ht
        exact Or.inr ⟨t.1, t.2.1, t.2.2, p, hdt.symm, hlt, hf⟩

theorem validate_images_diag_shape (pdf : List PRow) (fs : FS) (root : String) :
    ∀ d ∈ (validate_images pdf fs root).2,
      d = Diag.imageCountMismatch (imgLenViol pdf)
      ∨ d = Diag.missingImages (missingEntries pdf fs root)
      ∨ d = Diag.md5Mismatch (mismatchEntries pdf fs root)
      ∨ d = Diag.superfluousImages (superfluousImagePaths pdf fs root) := by
  intro d hd
  rw [validate_images] at hd
  obtain ⟨LV, hlv⟩ : ∃ x, imgLenViol pdf = x := ⟨_, rfl⟩
  obtain ⟨MI, hmi⟩ : ∃ x, missingEntries pdf fs root = x := ⟨_, rfl⟩
  obtain ⟨MS, hms⟩ : ∃ x, mismatchEntries pdf fs root = x := ⟨_, rfl⟩
  obtain ⟨SP, hsp⟩ : ∃ x, superfluousImagePaths pdf fs root = x := ⟨_, rfl⟩
  rw [hlv, hmi, hms, hsp] at hd
  rw [hlv, hmi, hms, hsp]
  rcases LV with _ | ⟨a1, l1⟩ <;> rcases MI with _ | ⟨a2, l2⟩ <;>
    rcases MS with _ | ⟨a3, l3⟩ <;> rcases SP with _ | ⟨a4, l4⟩ <;>
    simp_all <;> tauto

/-- The per-constructor soundness statement for the printed row numbers: a
printed number is always the zero-based index of a data row responsible for
the diagnostic, shifted by 2. -/
def C9P (df : List RRow) (root : String) : Diag → Prop
  | .emptyCells cells => ∀ p ∈ cells, ∀ n ∈ p.2, ∃ i, ∃ _ : i < df.length,
      n = i + shiftIndex ∧ pyStrip ((getCol (df.getD i default) p.1).getD "") = ""
  | .duplicateRows gs => ∀ gp ∈ gs, ∀ n ∈ gp, ∃ i, ∃ _ : i < df.length,
      n = i + shiftIndex ∧ 2 ≤ (df.map dupKey).count (dupKey (df.getD i default))
  | .contributorMissing rs => ∀ n ∈ rs, ∃ i, ∃ _ : i < df.length,
      n = i + shiftIndex ∧ contributorMissingB (parseRow (df.getD i default)) = true
  | .tooManyOrcids rs => ∀ n ∈ rs, ∃ i, ∃ _ : i < df.length,
      n = i + shiftIndex ∧ cardViolB (parseRow (df.getD i default)) = true
  | .imageCountMismatch rs => ∀ n ∈ rs, ∃ i, ∃ _ : i < df.length,
      n = i + shiftIndex ∧
        ((parseRow (df.getD i default)).imagesL.length
            ≠ (parseRow (df.getD i default)).captionsL.length
          ∨ (parseRow (df.getD i default)).captionsL.length
            ≠ (parseRow (df.getD i default)).md5L.length)
  | .missingImages es => ∀ e ∈ es, ∃ i, ∃ _ : i < df.length,
      e.1 = i + shiftIndex
        ∧ ∃ v ∈ (parseRow (df.getD i default)).imagesL, e.2 = pyJoin root v
  | .md5Mismatch es => ∀ e ∈ es, ∃ i, ∃ _ : i < df.length,
      e.1 = i + shiftIndex
        ∧ ∃ v ∈ (parseRow (df.getD i default)).imagesL, e.2 = pyJoin root v
  | .imageNotReferenced f _ n _ => ∃ i, ∃ _ : i < df.length,
      n = i + shiftIndex ∧ f ∈ (parseRow (df.getD i default)).imagesL
  | _ => True

theorem c9_gdiags (df : List RRow) (fs : FS) (root : String)
    (gres : List (List String × Nat × List Diag))
    (hm : (uniqueTC (df.map parseRow)).mapM
        (fun g => validate_supporting_material g (df.map parseRow) fs root shiftIndex)
      = .ok gres) :
    ∀ d ∈ (gres.map (fun t => t.2.2)).flatten, C9P df root d := by
  intro d hd
  rw [List.mem_flatten] at hd
  obtain ⟨l, hl, hdl⟩ := hd
  rw [List.mem_map] at hl
  obtain ⟨res, hres, hlr⟩ := hl
  obtain ⟨g, _, hvsm⟩ := mapM_ok_mem _ _ _ hm res hres
  rw [← hlr] at hdl
  rcases vsm_diag_sound g (df.map parseRow) fs root res hvsm d hdl with
    ⟨p, hs⟩ | ⟨f, cap, j, doc, hdq, hj, hf⟩
  · rcases hs with hs | hs | hs <;> (rw [hs]; trivial)
  · rw [hdq]
    have hjdf : j < df.length := by
      rw [← List.length_map df parseRow]
      exact hj
    refine ⟨j, hjdf, rfl, ?_⟩
    have hg : (df.map parseRow)[j] = parseRow (df.getD j default) := by
      rw [List.getElem_map]
      rw [List.getD_eq_getElem df default hjdf]
    rw [hg] at hf
    exact hf

theorem c9_images_diags (df : List RRow) (fs : FS) (root : String) :
    ∀ d ∈ (validate_images (df.map parseRow) fs root).2, C9P df root d := by
  intro d hd
  have hlen : (df.map parseRow).length = df.length := List.length_map df parseRow
  have hgd : ∀ i, i < (df.map parseRow).length →
      (df.map parseRow).getD i default = parseRow (df.getD i default) := by
    intro i hi
    rw [List.getD_eq_getElem _ default hi, List.getElem_map,
      List.getD_eq_getElem df default (by rw [← hlen]; exact hi)]
  rcases validate_images_diag_shape (df.map parseRow) fs root d hd with hs | hs | hs | hs
  · rw [hs]
    intro n hn
    rw [imgLenViol] at hn
    obtain ⟨i, hi, hn2, hq⟩ := (enumShift_mem (fun r : PRow =>
      decide (r.imagesL.length ≠ r.captionsL.length)
        || decide (r.captionsL.length ≠ r.md5L.length))).mp hn
    refine ⟨i, by rw [← hlen]; exact hi, hn2, ?_⟩
    have hg : (df.map parseRow)[i] = parseRow (df.getD i default) := by
      rw [← List.getD_eq_getElem _ default hi, hgd i hi]
    rw [hg] at hq
    simp only [Bool.or_eq_true, decide_eq_true_eq] at hq
    exact hq
  · rw [hs]
    intro e he
    obtain ⟨i, hi, fm, hfm, _, hee⟩ := missingEntries_mem.mp he
    refine ⟨i, by rw [← hlen]; exact hi, by rw [hee], ?_⟩
    have hfm1 := (List.of_mem_zip hfm).1
    rw [hgd i hi, absFiles] at hfm1
    obtain ⟨v, hv, hvp⟩ := List.mem_map.mp hfm1
    exact ⟨v, hv, by rw [hee]; exact hvp.symm⟩
  · rw [hs]
    intro e he
    obtain ⟨i, hi, fm, hfm, _, _, _, hee⟩ := mismatchEntries_mem.mp he
    refine ⟨i, by rw [← hlen]; exact hi, by rw [hee], ?_⟩
    have hfm1 := (List.of_mem_zip hfm).1
    rw [hgd i hi, absFiles] at hfm1
    obtain ⟨v, hv, hvp⟩ := List.mem_map.mp hfm1
    exact ⟨v, hv, by rw [hee]; exact hvp.symm⟩
  · rw [hs]
    trivial

/-- C9: every row number printed in any diagnostic of the validator is the
zero-based index of a data row responsible for that diagnostic, shifted by
`shiftIndex = 2` (spreadsheet numbering where row 1 is the header): the
per-constructor statement `C9P` names, for each kind of diagnostic, the
violating condition that holds at index `n - 2`. -/
theorem c9_shifted_row_numbers (df : List RRow) (cfg : Config)
    (creators vendors : List String) (fs : FS) (root : String)
    (s : Nat) (diags : List Diag)
    (h : validate_reagent_resources df cfg creators vendors fs root = .ok (s, diags)) :
    ∀ d ∈ diags, C9P df root d := by
  simp only [validate_reagent_resources] at h
  obtain ⟨ECR, hecr⟩ : ∃ x, emptyCellReport df = x := ⟨_, rfl⟩
  rw [hecr] at h
  cases ECR with
  | cons p t =>
    simp only [List.isEmpty_cons, Bool.not_false, if_true, Except.ok.injEq,
      Prod.mk.injEq] at h
    obtain ⟨_, hd⟩ := h
    subst hd
    intro d hd
    have hde : d = Diag.emptyCells (p :: t) := by simpa using hd
    subst hde
    intro pc hpc n hn
    exact emptyCellReport_sound
      (show (pc.1, pc.2) ∈ emptyCellReport df by rw [hecr]; exact hpc) n hn
  | nil =>
    rw [if_neg (by simp)] at h
    by_cases hvd : validate_df df (addConfig cfg (creators.map pyStrip ++ ["NA"]) vendors) ≠ 0
    · rw [if_pos hvd] at h
      simp only [Except.ok.injEq, Prod.mk.injEq] at h
      obtain ⟨_, hd⟩ := h
      subst hd
      intro d hd
      cases hd
    · rw [if_neg hvd] at h
      obtain ⟨DG, hdg⟩ : ∃ x, dupGroups df = x := ⟨_, rfl⟩
      rw [hdg] at h
      cases DG with
      | cons p t =>
        simp only [List.isEmpty_cons, Bool.not_false, if_true, Except.ok.injEq,
          Prod.mk.injEq] at h
        obtain ⟨_, hd⟩ := h
        subst hd
        intro d hd
        have hde : d = Diag.duplicateRows ((p :: t).map
            (fun l => l.map (· + shiftIndex))) := by simpa using hd
        subst hde
        intro gp hgp n hn
        rw [List.mem_map] at hgp
        obtain ⟨g0, hg0, hgp0⟩ := hgp
        rw [← hgp0, List.mem_map] at hn
        obtain ⟨i, hi, hni⟩ := hn
        obtain ⟨hlt, hcount⟩ := dupGroups_sound (by rw [hdg]; exact hg0) i hi
        exact ⟨i, hlt, hni.symm, hcount⟩
      | nil =>
        rw [if_neg (by simp)] at h
        obtain ⟨CM, hcm⟩ : ∃ x, violIdx contributorMissingB (df.map parseRow) = x :=
          ⟨_, rfl⟩
        rw [hcm] at h
        cases CM with
        | cons p t =>
          simp only [List.isEmpty_cons, Bool.not_false, if_true, Except.ok.injEq,
            Prod.mk.injEq] at h
          obtain ⟨_, hd⟩ := h
          subst hd
          intro d hd
          have hde : d = Diag.contributorMissing ((p :: t).map (· + shiftIndex)) := by
            simpa using hd
          subst hde
          intro n hn
          rw [List.mem_map] at hn
          obtain ⟨i, hi, hni⟩ := hn
          obtain ⟨hlt, hviol⟩ := violIdx_mem.mp (by rw [hcm]; exact hi)
          have hldf : i < df.length := by
            rw [← List.length_map df parseRow]
            exact hlt
          refine ⟨i, hldf, hni.symm, ?_⟩
          have hg : (df.map parseRow)[i] = parseRow (df.getD i default) := by
            rw [List.getElem_map, List.getD_eq_getElem df default hldf]
          rw [← hg]
          exact hviol
        | nil =>
          rw [if_neg (by simp)] at h
          obtain ⟨CV, hcv⟩ : ∃ x, violIdx cardViolB (df.map parseRow) = x := ⟨_, rfl⟩
          rw [hcv] at h
          cases CV with
          | cons p t =>
            simp only [List.isEmpty_cons, Bool.not_false, if_true, Except.ok.injEq,
              Prod.mk.injEq] at h
            obtain ⟨_, hd⟩ := h
            subst hd
            intro d hd
            have hde : d = Diag.tooManyOrcids ((p :: t).map (· + shiftIndex)) := by
              simpa using hd
            subst hde
            intro n hn
            rw [List.mem_map] at hn
            obtain ⟨i, hi, hni⟩ := hn
            obtain ⟨hlt, hviol⟩ := violIdx_mem.mp (by rw [hcv]; exact hi)
            have hldf : i < df.length := by
              rw [← List.length_map df parseRow]
              exact hlt
            refine ⟨i, hldf, hni.symm, ?_⟩
            have hg : (df.map parseRow)[i] = parseRow (df.getD i default) := by
              rw [List.getElem_map, List.getD_eq_getElem df default hldf]
            rw [← hg]
            exact hviol
          | nil =>
            rw [if_neg (by simp)] at h
            obtain ⟨OV, hov⟩ : ∃ x, violIdx overlapB (df.map parseRow) = x := ⟨_, rfl⟩
            rw [hov] at h
            cases OV with
            | cons p t =>
              simp only [List.isEmpty_cons, Bool.not_false, if_true] at h
              cases h
            | nil =>
              rw [if_neg (by simp)] at h
              cases hmapm : (uniqueTC (df.map parseRow)).mapM
                  (fun g => validate_supporting_material g (df.map parseRow) fs root
                    shiftIndex) with
              | error e =>
                rw [hmapm] at h
                have h3 : (Except.error e : Except String (Nat × List Diag))
                    = .ok (s, diags) := h
                cases h3
              | ok gres =>
                rw [hmapm] at h
                rw [except_ok_bind] at h
                have hgd := c9_gdiags df fs root gres hmapm
                by_cases hany : (gres.any fun t => decide (t.2.1 ≠ 0)) = true
                · rw [if_pos hany] at h
                  simp only [Except.ok.injEq, Prod.mk.injEq] at h
                  obtain ⟨_, hd⟩ := h
                  subst hd
                  exact hgd
                · rw [if_neg hany] at h
                  obtain ⟨SM, hsm⟩ : ∃ x, fs.allMdPaths.filter
                      (fun p => !((gres.map (fun t => t.1)).flatten.contains p)) = x :=
                    ⟨_, rfl⟩
                  rw [hsm] at h
                  cases SM with
                  | cons p t =>
                    simp only [List.isEmpty_cons, Bool.not_false, if_true,
                      Except.ok.injEq, Prod.mk.injEq] at h
                    obtain ⟨_, hd⟩ := h
                    subst hd
                    intro d hd
                    rcases List.mem_append.mp hd with h1 | h2
                    · exact hgd d h1
                    · have hde : d = Diag.superfluousMd (p :: t) := by simpa using h2
                      subst hde
                      trivial
                  | nil =>
                    rw [if_neg (by simp)] at h
                    simp only [Except.ok.injEq, Prod.mk.injEq] at h
                    obtain ⟨_, hd⟩ := h
                    subst hd
                    intro d hd
                    rcases List.mem_append.mp hd with h1 | h2
                    · exact hgd d h1
                    · exact c9_images_diags df fs root d h2

/-- C9 witness: a blank Vendor cell in the first data row (index 0) is
reported as row 2, and the reported number is the violating row index
shifted by 2. -/
theorem c9_witness :
    ∃ i, ∃ _ : i < ([blankRow] : List RRow).length, (2 : Nat) = i + shiftIndex
      ∧ pyStrip ((getCol (([blankRow] : List RRow).getD i default) "Vendor").getD "")
        = "" := by
  have h := c9_shifted_row_numbers [blankRow] cfg0 [orcidA] ["VendorX"] goodFS
    "/data" 1 [Diag.emptyCells [("Vendor", [2])]] rfl
  have h2 := h (Diag.emptyCells [("Vendor", [2])]) (by decide)
  exact h2 ("Vendor", [2]) (by decide) 2 (by decide)

/- ## C1: fully valid inputs -/

theorem getCol_contributor (r : RRow) : getCol r "Contributor" = some r.contributor := rfl

theorem getCol_vendor (r : RRow) : getCol r "Vendor" = some r.vendor := rfl

theorem getCol_agree (r : RRow) : getCol r "Agree" = some r.agree := rfl

theorem getCol_disagree (r : RRow) : getCol r "Disagree" = some r.disagree := rfl

theorem setAssoc_mem {m : List (String × List String)} {k : String}
    {v : List String} {p : String × List String} (h : p ∈ setAssoc m k v) :
    p = (k, v) ∨ (p ∈ m ∧ p.1 ≠ k) := by
  rw [setAssoc] at h
  by_cases hany : m.any (fun q => q.1 == k) = true
  · rw [if_pos hany] at h
    rw [List.mem_map] at h
    obtain ⟨q, hq, hqp⟩ := h
    by_cases hqk : q.1 == k
    · rw [if_pos hqk] at hqp
      exact Or.inl hqp.symm
    · rw [if_neg hqk] at hqp
      refine Or.inr ⟨by rw [← hqp]; exact hq, ?_⟩
      rw [← hqp]
      simpa using hqk
  · rw [if_neg hany] at h
    rcases List.mem_append.mp h with h1 | h2
    · have hany2 : (m.any fun q => q.1 == k) = false := by
        cases hb : m.any fun q => q.1 == k
        · rfl
        · exact absurd hb hany
      rw [List.any_eq_false] at hany2
      have := hany2 p h1
      exact Or.inr ⟨h1, by simpa using this⟩
    · exact Or.inl (by simpa using h2)

theorem all_contains_of_mem {l : List String} {xs : List RRow} {f : RRow → String}
    (h : ∀ r ∈ xs, f r ∈ l) : (xs.all fun r => l.contains (f r)) = true := by
  rw [List.all_eq_true]
  intro r hr
  exact List.elem_iff.mpr (h r hr)

/-- Check 2 passes on a table whose identity and vendor columns draw from
the injected allowed lists, as long as the base configuration constrains no
column other than the four injected ones. -/
theorem validate_df_injected (df : List RRow) (cfg : Config)
    (orcids vendors : List String)
    (hcfg1 : ∀ m, cfg.column_is_in = some m →
      ∀ p ∈ m, p.1 = "Contributor" ∨ p.1 = "Vendor")
    (hcfg2 : ∀ m, cfg.multi_value_column_is_in = some m →
      ∀ p ∈ m, p.1 = "Agree" ∨ p.1 = "Disagree")
    (hco : ∀ r ∈ df, r.contributor ∈ orcids)
    (hv : ∀ r ∈ df, r.vendor ∈ vendors)
    (hag : ∀ r ∈ df, ∀ t ∈ (pySplit ';' r.agree).map pyStrip, t ∈ orcids)
    (hdis : ∀ r ∈ df, ∀ t ∈ (pySplit ';' r.disagree).map pyStrip, t ∈ orcids) :
    validate_df df (addConfig cfg orcids vendors) = 0 := by
  have hciP : ∀ p ∈ (addConfig cfg orcids vendors).column_is_in.getD [],
      p = ("Contributor", orcids) ∨ p = ("Vendor", vendors) := by
    intro p hp
    obtain ⟨c1, c2⟩ := cfg
    cases c1 with
    | none =>
      simp only [addConfig, Option.getD_some] at hp
      have : p = ("Vendor", vendors) := by simpa using hp
      exact Or.inr this
    | some m =>
      simp only [addConfig, Option.getD_some] at hp
      rcases setAssoc_mem hp with h1 | ⟨h2, hne⟩
      · exact Or.inr h1
      · rcases setAssoc_mem h2 with h3 | ⟨h4, hne2⟩
        · exact Or.inl h3
        · rcases hcfg1 m rfl p h4 with h5 | h5
          · exact absurd h5 hne2
          · exact absurd h5 hne
  have hmvP : ∀ p ∈ (addConfig cfg orcids vendors).multi_value_column_is_in.getD [],
      p = ("Agree", orcids) ∨ p = ("Disagree", orcids) := by
    intro p hp
    obtain ⟨c1, c2⟩ := cfg
    cases c2 with
    | none =>
      simp only [addConfig, Option.getD_some] at hp
      rcases (by simpa using hp : p = ("Agree", orcids) ∨ p = ("Disagree", orcids)) with h | h
      · exact Or.inl h
      · exact Or.inr h
    | some m =>
      simp only [addConfig, Option.getD_some] at hp
      rcases setAssoc_mem hp with h1 | ⟨h2, hne⟩
      · exact Or.inr h1
      · rcases setAssoc_mem h2 with h3 | ⟨h4, hne2⟩
        · exact Or.inl h3
        · rcases hcfg2 m rfl p h4 with h5 | h5
          · exact absurd h5 hne2
          · exact absurd h5 hne
  have hsome1 : ∃ ci, (addConfig cfg orcids vendors).column_is_in = some ci :=
    ⟨_, rfl⟩
  have hsome2 : ∃ mv, (addConfig cfg orcids vendors).multi_value_column_is_in
      = some mv := ⟨_, rfl⟩
  obtain ⟨ci, hci⟩ := hsome1
  obtain ⟨mv, hmv⟩ := hsome2
  simp only [validate_df, hci, hmv]
  have hciOK : ci.all (fun p => df.all (fun r =>
      match getCol r p.1 with
      | some v => p.2.contains v
      | none => false)) = true := by
    rw [List.all_eq_true]
    intro p hp
    have hp2 : p ∈ (addConfig cfg orcids vendors).column_is_in.getD [] := by
      rw [hci]
      exact hp
    rcases hciP p hp2 with h | h <;> subst h
    · simp only [getCol_contributor]
      exact all_contains_of_mem hco
    · simp only [getCol_vendor]
      exact all_contains_of_mem hv
  have hmvOK : mv.all (fun p => df.all (fun r =>
      match getCol r p.1 with
      | some v => ((pySplit ';' v).map pyStrip).all (fun t => p.2.contains t)
      | none => false)) = true := by
    rw [List.all_eq_true]
    intro p hp
    have hp2 : p ∈ (addConfig cfg orcids vendors).multi_value_column_is_in.getD [] := by
      rw [hmv]
      exact hp
    rcases hmvP p hp2 with h | h <;> subst h
    · simp only [getCol_agree]
      rw [List.all_eq_true]
      intro r hr
      rw [List.all_eq_true]
      intro t ht
      exact List.elem_iff.mpr (hag r hr t ht)
    · simp only [getCol_disagree]
      rw [List.all_eq_true]
      intro r hr
      rw [List.all_eq_true]
      intro t ht
      exact List.elem_iff.mpr (hdis r hr t ht)
  rw [hciOK, hmvOK]
  rfl

theorem count_le_one_of_nodup {l : List (List String)} (h : l.Nodup)
    (a : List String) : l.count a ≤ 1 := by
  induction l with
  | nil => simp
  | cons b t ih =>
    rw [List.count_cons]
    obtain ⟨hb, ht⟩ := List.nodup_cons.mp h
    by_cases hba : b == a
    · have hbae : b = a := beq_iff_eq.mp hba
      subst hbae
      have : t.count b = 0 := List.count_eq_zero.mpr hb
      rw [this, if_pos hba]
    · rw [if_neg hba]
      have := ih ht
      omega

theorem dupGroups_nil (df : List RRow) (h : (df.map dupKey).Nodup) :
    dupGroups df = [] := by
  rw [dupGroups, List.filterMap_eq_nil_iff]
  intro k _
  by_cases hlen : 2 ≤ (df.enum.filterMap
      (fun q => if dupKey q.2 == k then some q.1 else none)).length
  · exfalso
    have hcount := dupIdxs_length df k 0
    have h2 := count_le_one_of_nodup h k
    rw [List.enum] at hlen
    omega
  · rw [if_neg hlen]

/-- A group whose documents all exist with matching configuration tables and
whose image/caption triples are all referenced validates cleanly. -/
theorem vsm_all_good (g : String × String) (pdf : List PRow) (fs : FS)
    (root : String)
    (hdocs : ∀ o ∈ groupOrcids (tcRows pdf g), ∃ c tbl,
      fs.mdContent (docPath root g o) = some c
      ∧ parseSupportingDoc c = some tbl
      ∧ tables_match tbl (orcidConfigTable (tcRows pdf g) o) = true)
    (htrip : ∀ t ∈ groupTriples (tcRows pdf g),
      ∃ o ∈ groupOrcids (tcRows pdf g), ∃ c,
        fs.mdContent (docPath root g o) = some c
        ∧ subStr (pyBasename t.1) c = true ∧ subStr t.2.1 c = true) :
    validate_supporting_material g pdf fs root shiftIndex
      = .ok ((groupOrcids (tcRows pdf g)).map (docPath root g), 0, []) := by
  rw [validate_supporting_material]
  set rows := tcRows pdf g with hrows
  set orcids := groupOrcids rows with horcids
  set dir := docDirPath root g with hdir
  set st0 : GroupState := initGroupState rows with hst0
  set st := orcids.foldl (groupStep fs rows dir) st0 with hst
  have hsucc := foldGS_success fs rows dir orcids st0 (by
    intro o ho
    obtain ⟨c, tbl, hc, hp, hm⟩ := hdocs o ho
    exact ⟨c, tbl, hc, hp, hm⟩)
  have hempt : st.triples = [] := by
    rw [List.eq_nil_iff_forall_not_mem]
    intro t ht
    obtain ⟨h1, h2⟩ := (foldGS_triples_mem fs rows dir orcids st0 t).mp ht
    have h1b : t ∈ groupTriples rows := h1
    obtain ⟨o, ho, c, hc, hb1, hb2⟩ := htrip t h1b
    exact h2 o ho c hc ⟨hb1, hb2⟩
  rw [if_pos (by rw [hempt]; rfl)]
  have hfns : st.fns = orcids.map (docPath root g) := by
    rw [hst, hst0, foldGS_fns]
    simp only [initGroupState, List.nil_append]
    rfl
  rw [hfns, hsucc.1, hsucc.2]
  rfl

theorem mapM_ok_of_all {α β : Type} (F : α → Except String β) (v : α → β) :
    ∀ l : List α, (∀ a ∈ l, F a = .ok (v a)) → l.mapM F = .ok (l.map v) := by
  intro l
  induction l with
  | nil => intro _; rfl
  | cons a l ih =>
    intro h
    rw [List.mapM_cons, h a (List.mem_cons_self a l), except_ok_bind]
    rw [ih (fun a2 ha2 => h a2 (List.mem_cons_of_mem a ha2)), except_ok_bind]
    rfl

/-- Image validation passes when the three image columns have one common
length per row, every listed image exists with its recorded hash, and no
extra file is on disk. -/
theorem validate_images_all_good (pdf : List PRow) (fs : FS) (root : String)
    (hlen : ∀ r ∈ pdf, r.imagesL.length = r.captionsL.length
      ∧ r.captionsL.length = r.md5L.length)
    (hhash : ∀ r ∈ pdf, ∀ fm ∈ (absFiles root r).zip r.md5L,
      fs.imageHash fm.1 = some fm.2)
    (hsup : ∀ p ∈ fs.allImagePaths, p ∈ csvImagePaths pdf root) :
    validate_images pdf fs root = (0, []) := by
  have hlv : imgLenViol pdf = [] := by
    rw [imgLenViol, List.filterMap_eq_nil_iff]
    rintro ⟨j, r⟩ hmem
    rw [List.mem_enum_iff_getElem?] at hmem
    obtain ⟨hj, hr⟩ := List.getElem?_eq_some.mp hmem
    have hr2 : pdf[j] = r := hr
    have hrm : r ∈ pdf := by rw [← hr2]; exact List.getElem_mem _
    obtain ⟨h1, h2⟩ := hlen r hrm
    simp [h1, h2]
  have hmi : missingEntries pdf fs root = [] := by
    rw [missingEntries, List.flatten_eq_nil_iff]
    intro l hl
    rw [List.mem_map] at hl
    obtain ⟨⟨j, r⟩, hmem, hlr⟩ := hl
    rw [List.mem_enum_iff_getElem?] at hmem
    obtain ⟨hj, hr⟩ := List.getElem?_eq_some.mp hmem
    have hr2 : pdf[j] = r := hr
    have hrm : r ∈ pdf := by rw [← hr2]; exact List.getElem_mem _
    rw [← hlr, List.filterMap_eq_nil_iff]
    intro fm hfm
    rw [hhash r hrm fm hfm]
    simp
  have hms : mismatchEntries pdf fs root = [] := by
    rw [mismatchEntries, List.flatten_eq_nil_iff]
    intro l hl
    rw [List.mem_map] at hl
    obtain ⟨⟨j, r⟩, hmem, hlr⟩ := hl
    rw [List.mem_enum_iff_getElem?] at hmem
    obtain ⟨hj, hr⟩ := List.getElem?_eq_some.mp hmem
    have hr2 : pdf[j] = r := hr
    have hrm : r ∈ pdf := by rw [← hr2]; exact List.getElem_mem _
    rw [← hlr, List.filterMap_eq_nil_iff]
    intro fm hfm
    rw [hhash r hrm fm hfm]
    simp
  have hsp : superfluousImagePaths pdf fs root = [] := by
    rw [superfluousImagePaths, List.filter_eq_nil_iff]
    intro p hp
    simp only [Bool.not_eq_true, Bool.not_eq_false]
    have hmem2 : (csvImagePaths pdf root).contains p = true :=
      List.elem_iff.mpr (hsup p hp)
    rw [hmem2]
    rfl
  rw [validate_images, hlv, hmi, hms, hsp]
  rfl

/-- C1 amended: the validator returns success (status 0, no diagnostics) on
every input set in which no cell is blank, the Contributor, Vendor, Agree
and Disagree values are drawn from the externally loaded allowed sets (and
the rule configuration constrains no other column), no two rows are
duplicates once the contributor columns are ignored, every Contributor
appears in its parsed Agree or Disagree token list, the parsed Agree and
Disagree token lists have at most 5 entries each — counted with
multiplicity, not as sets — and are disjoint, the image, caption and hash
columns parse to lists of one common length per row, every expected
supporting document exists with a matching Configurations table, every
image/caption pair is referenced in a document of its group, every listed
image exists with its recorded hash, and no superfluous markdown or image
file is present. -/
theorem c1_amended (df : List RRow) (cfg : Config)
    (creators vendors : List String) (fs : FS) (root : String)
    (h1 : ∀ r ∈ df, ∀ c ∈ colNames, pyStrip ((getCol r c).getD "") ≠ "")
    (hcfg1 : ∀ m, cfg.column_is_in = some m →
      ∀ p ∈ m, p.1 = "Contributor" ∨ p.1 = "Vendor")
    (hcfg2 : ∀ m, cfg.multi_value_column_is_in = some m →
      ∀ p ∈ m, p.1 = "Agree" ∨ p.1 = "Disagree")
    (h2a : ∀ r ∈ df, r.contributor ∈ creators.map pyStrip ++ ["NA"])
    (h2b : ∀ r ∈ df, r.vendor ∈ vendors)
    (h2c : ∀ r ∈ df, ∀ t ∈ (pySplit ';' r.agree).map pyStrip,
      t ∈ creators.map pyStrip ++ ["NA"])
    (h2d : ∀ r ∈ df, ∀ t ∈ (pySplit ';' r.disagree).map pyStrip,
      t ∈ creators.map pyStrip ++ ["NA"])
    (h3 : (df.map dupKey).Nodup)
    (h4 : ∀ r ∈ df, r.contributor ∈ parseAD r.agree ++ parseAD r.disagree)
    (h5 : ∀ r ∈ df, (parseAD r.agree).length ≤ MAX_ORCID_ENTRIES
      ∧ (parseAD r.disagree).length ≤ MAX_ORCID_ENTRIES)
    (h6 : ∀ r ∈ df, ∀ x ∈ parseAD r.agree, x ∉ parseAD r.disagree)
    (h7 : ∀ r ∈ df, (parseImg r.imageFiles).length = (parseImg r.captions).length
      ∧ (parseImg r.captions).length = (parseImg r.md5).length)
    (h8 : ∀ g ∈ uniqueTC (df.map parseRow),
      ∀ o ∈ groupOrcids (tcRows (df.map parseRow) g), ∃ c tbl,
        fs.mdContent (docPath root g o) = some c
        ∧ parseSupportingDoc c = some tbl
        ∧ tables_match tbl (orcidConfigTable (tcRows (df.map parseRow) g) o) = true)
    (h9 : ∀ g ∈ uniqueTC (df.map parseRow),
      ∀ t ∈ groupTriples (tcRows (df.map parseRow) g),
        ∃ o ∈ groupOrcids (tcRows (df.map parseRow) g), ∃ c,
          fs.mdContent (docPath root g o) = some c
          ∧ subStr (pyBasename t.1) c = true ∧ subStr t.2.1 c = true)
    (h10 : ∀ r ∈ df, ∀ fm ∈ (absFiles root (parseRow r)).zip (parseRow r).md5L,
      fs.imageHash fm.1 = some fm.2)
    (h11 : ∀ p ∈ fs.allMdPaths, ∃ g ∈ uniqueTC (df.map parseRow),
      ∃ o ∈ groupOrcids (tcRows (df.map parseRow) g), p = docPath root g o)
    (h12 : ∀ p ∈ fs.allImagePaths, p ∈ csvImagePaths (df.map parseRow) root) :
    validate_reagent_resources df cfg creators vendors fs root = .ok (0, []) := by
  simp only [validate_reagent_resources]
  rw [emptyCellReport_nil h1]
  rw [if_neg (by simp)]
  rw [validate_df_injected df cfg (creators.map pyStrip ++ ["NA"]) vendors
    hcfg1 hcfg2 h2a h2b h2c h2d]
  rw [if_neg (by simp)]
  rw [dupGroups_nil df h3]
  rw [if_neg (by simp)]
  have hcm : violIdx contributorMissingB (df.map parseRow) = [] := by
    apply violIdx_nil
    intro r hr
    obtain ⟨r0, hr0, hpr⟩ := List.mem_map.mp hr
    rw [← hpr, contributorMissingB]
    have hc : ((parseRow r0).agreeL ++ (parseRow r0).disagreeL).contains
        (parseRow r0).contributor = true := List.elem_iff.mpr (h4 r0 hr0)
    rw [hc]
    rfl
  rw [hcm]
  rw [if_neg (by simp)]
  have hcv : violIdx cardViolB (df.map parseRow) = [] := by
    apply violIdx_nil
    intro r hr
    obtain ⟨r0, hr0, hpr⟩ := List.mem_map.mp hr
    obtain ⟨ha, hb⟩ := h5 r0 hr0
    rw [← hpr, cardViolB]
    have e1 : decide (MAX_ORCID_ENTRIES < (parseRow r0).agreeL.length) = false :=
      decide_eq_false (Nat.not_lt.mpr ha)
    have e2 : decide (MAX_ORCID_ENTRIES < (parseRow r0).disagreeL.length) = false :=
      decide_eq_false (Nat.not_lt.mpr hb)
    rw [e1, e2]
    rfl
  rw [hcv]
  rw [if_neg (by simp)]
  have hov : violIdx overlapB (df.map parseRow) = [] := by
    apply violIdx_nil
    intro r hr
    obtain ⟨r0, hr0, hpr⟩ := List.mem_map.mp hr
    rw [← hpr, overlapB]
    rw [List.any_eq_false]
    intro x hx
    intro hc
    exact h6 r0 hr0 x hx (List.elem_iff.mp hc)
  rw [hov]
  rw [if_neg (by simp)]
  have hall : ∀ g ∈ uniqueTC (df.map parseRow),
      validate_supporting_material g (df.map parseRow) fs root shiftIndex
        = .ok ((groupOrcids (tcRows (df.map parseRow) g)).map (docPath root g),
            0, []) :=
    fun g hg => vsm_all_good g (df.map parseRow) fs root (h8 g hg) (h9 g hg)
  rw [mapM_ok_of_all _
    (fun g => ((groupOrcids (tcRows (df.map parseRow) g)).map (docPath root g),
      0, ([] : List Diag))) _ hall]
  rw [except_ok_bind]
  have hany : ((uniqueTC (df.map parseRow)).map
      (fun g => ((groupOrcids (tcRows (df.map parseRow) g)).map (docPath root g),
        0, ([] : List Diag)))).any (fun t => decide (t.2.1 ≠ 0)) = false := by
    rw [List.any_eq_false]
    intro t ht
    rw [List.mem_map] at ht
    obtain ⟨g, _, hgt⟩ := ht
    rw [← hgt]
    simp
  rw [hany]
  rw [if_neg (by simp)]
  have hcollected : fs.allMdPaths.filter (fun p =>
      !((((uniqueTC (df.map parseRow)).map
        (fun g => ((groupOrcids (tcRows (df.map parseRow) g)).map (docPath root g),
          0, ([] : List Diag)))).map (fun t => t.1)).flatten.contains p)) = [] := by
    rw [List.filter_eq_nil_iff]
    intro p hp
    obtain ⟨g, hg, o, ho, hpo⟩ := h11 p hp
    simp only [Bool.not_eq_true, Bool.not_eq_false]
    have hb : ∀ b : Bool, b = true → (!b) = false := by
      intro b hb
      rw [hb]
      rfl
    apply hb
    apply List.elem_iff.mpr
    rw [List.mem_flatten]
    refine ⟨(groupOrcids (tcRows (df.map parseRow) g)).map (docPath root g), ?_, ?_⟩
    · rw [List.map_map, List.mem_map]
      exact ⟨g, hg, rfl⟩
    · rw [hpo]
      exact List.mem_map_of_mem _ ho
  rw [hcollected]
  rw [if_neg (by simp)]
  have himgs : validate_images (df.map parseRow) fs root = (0, []) := by
    apply validate_images_all_good
    · intro r hr
      obtain ⟨r0, hr0, hpr⟩ := List.mem_map.mp hr
      rw [← hpr]
      exact h7 r0 hr0
    · intro r hr fm hfm
      obtain ⟨r0, hr0, hpr⟩ := List.mem_map.mp hr
      rw [← hpr] at hfm
      exact h10 r0 hr0 fm hfm
    · exact h12
  rw [himgs]
  have hgdiags : (((uniqueTC (df.map parseRow)).map
      (fun g => ((groupOrcids (tcRows (df.map parseRow) g)).map (docPath root g),
        0, ([] : List Diag)))).map (fun t => t.2.2)).flatten = ([] : List Diag) := by
    rw [List.map_map, List.flatten_eq_nil_iff]
    intro l hl
    rw [List.mem_map] at hl
    obtain ⟨g, _, hgl⟩ := hl
    rw [← hgl]
    rfl
  rw [hgdiags]
  rfl

/-- A row identical to `goodRow` except that its MD5 cell parses to a
two-element list while its image-file and caption cells parse to empty
lists. -/
def c1bRow : RRow :=
  { goodRow with md5 := "x;y" }

set_option maxRecDepth 8000 in
/-- C1 counterexample: the claim promises success (return 0) from hypotheses
that are weaker than what the code requires, in two ways.  First scenario: a
single row satisfying every claimed hypothesis — no blank cells, all values
allowed, no duplicates, contributor in its Agree list, the Agree and
Disagree ORCID sets of at most 5 elements and disjoint, the expected
document present and matching, no images listed, nothing superfluous — whose
Agree cell repeats one ORCID six times: the code compares the token-list
length, not the set size, and returns 1 with a too-many-ORCIDs diagnostic.
Second scenario: a row again satisfying every claimed hypothesis (its listed
image files — there are none — trivially all exist with matching hashes)
whose MD5 cell parses to two entries while the image and caption cells parse
to none: the code returns 1 with an image-count-mismatch diagnostic.  The
claim constrains neither the token-list multiplicity nor the relative
lengths of the three image columns, so both runs refute it. -/
theorem c1_counterexample :
    ((∀ r ∈ [c4Row], ∀ c ∈ colNames, pyStrip ((getCol r c).getD "") ≠ "")
     ∧ (∀ r ∈ [c4Row], r.contributor ∈ [orcidA].map pyStrip ++ ["NA"]
         ∧ r.vendor ∈ ["VendorX"]
         ∧ (∀ t ∈ (pySplit ';' r.agree).map pyStrip, t ∈ [orcidA].map pyStrip ++ ["NA"])
         ∧ (∀ t ∈ (pySplit ';' r.disagree).map pyStrip, t ∈ [orcidA].map pyStrip ++ ["NA"]))
     ∧ ([c4Row].map dupKey).Nodup
     ∧ (∀ r ∈ [c4Row], r.contributor ∈ parseAD r.agree ++ parseAD r.disagree)
     ∧ (∀ r ∈ [c4Row], (parseAD r.agree).toFinset.card ≤ MAX_ORCID_ENTRIES
         ∧ (parseAD r.disagree).toFinset.card ≤ MAX_ORCID_ENTRIES
         ∧ ∀ x ∈ parseAD r.agree, x ∉ parseAD r.disagree)
     ∧ (∀ g ∈ uniqueTC ([c4Row].map parseRow),
         ∀ o ∈ groupOrcids (tcRows ([c4Row].map parseRow) g), ∃ c tbl,
           goodFS.mdContent (docPath "/data" g o) = some c
           ∧ parseSupportingDoc c = some tbl
           ∧ tables_match tbl (orcidConfigTable (tcRows ([c4Row].map parseRow) g) o) = true)
     ∧ (∀ g ∈ uniqueTC ([c4Row].map parseRow),
         groupTriples (tcRows ([c4Row].map parseRow) g) = [])
     ∧ (∀ r ∈ [c4Row], ∀ fm ∈ (absFiles "/data" (parseRow r)).zip (parseRow r).md5L,
         goodFS.imageHash fm.1 = some fm.2)
     ∧ (∀ p ∈ goodFS.allMdPaths, ∃ g ∈ uniqueTC ([c4Row].map parseRow),
         ∃ o ∈ groupOrcids (tcRows ([c4Row].map parseRow) g), p = docPath "/data" g o)
     ∧ goodFS.allImagePaths = []
     ∧ validate_reagent_resources [c4Row] cfg0 [orcidA] ["VendorX"] goodFS "/data"
         = .ok (1, [Diag.tooManyOrcids [2]]))
    ∧ ((∀ r ∈ [c1bRow], ∀ c ∈ colNames, pyStrip ((getCol r c).getD "") ≠ "")
     ∧ (∀ r ∈ [c1bRow], r.contributor ∈ [orcidA].map pyStrip ++ ["NA"]
         ∧ r.vendor ∈ ["VendorX"]
         ∧ (∀ t ∈ (pySplit ';' r.agree).map pyStrip, t ∈ [orcidA].map pyStrip ++ ["NA"])
         ∧ (∀ t ∈ (pySplit ';' r.disagree).map pyStrip, t ∈ [orcidA].map pyStrip ++ ["NA"]))
     ∧ ([c1bRow].map dupKey).Nodup
     ∧ (∀ r ∈ [c1bRow], r.contributor ∈ parseAD r.agree ++ parseAD r.disagree)
     ∧ (∀ r ∈ [c1bRow], (parseAD r.agree).toFinset.card ≤ MAX_ORCID_ENTRIES
         ∧ (parseAD r.disagree).toFinset.card ≤ MAX_ORCID_ENTRIES
         ∧ ∀ x ∈ parseAD r.agree, x ∉ parseAD r.disagree)
     ∧ (∀ g ∈ uniqueTC ([c1bRow].map parseRow),
         ∀ o ∈ groupOrcids (tcRows ([c1bRow].map parseRow) g), ∃ c tbl,
           goodFS.mdContent (docPath "/data" g o) = some c
           ∧ parseSupportingDoc c = some tbl
           ∧ tables_match tbl (orcidConfigTable (tcRows ([c1bRow].map parseRow) g) o) = true)
     ∧ (∀ g ∈ uniqueTC ([c1bRow].map parseRow),
         groupTriples (tcRows ([c1bRow].map parseRow) g) = [])
     ∧ (∀ r ∈ [c1bRow], ∀ fm ∈ (absFiles "/data" (parseRow r)).zip (parseRow r).md5L,
         goodFS.imageHash fm.1 = some fm.2)
     ∧ (∀ p ∈ goodFS.allMdPaths, ∃ g ∈ uniqueTC ([c1bRow].map parseRow),
         ∃ o ∈ groupOrcids (tcRows ([c1bRow].map parseRow) g), p = docPath "/data" g o)
     ∧ goodFS.allImagePaths = []
     ∧ validate_reagent_resources [c1bRow] cfg0 [orcidA] ["VendorX"] goodFS "/data"
         = .ok (1, [Diag.imageCountMismatch [2]])) := by
  refine ⟨⟨by decide, by decide, by decide, by decide, by decide, ?_,
      by decide, by decide, by decide, by decide, rfl⟩,
    ⟨by decide, by decide, by decide, by decide, by decide, ?_,
      by decide, by decide, by decide, by decide, rfl⟩⟩
  · intro g hg o ho
    have hu : uniqueTC ([c4Row].map parseRow) = [("TgtA", "ConjB")] := by decide
    rw [hu, List.mem_singleton] at hg
    subst hg
    have hos : groupOrcids (tcRows ([c4Row].map parseRow) ("TgtA", "ConjB"))
        = [orcidA] := by decide
    rw [hos, List.mem_singleton] at ho
    subst ho
    exact ⟨goodDoc, [csvConfigRow (parseRow goodRow)], by decide, by decide, by decide⟩
  · intro g hg o ho
    have hu : uniqueTC ([c1bRow].map parseRow) = [("TgtA", "ConjB")] := by decide
    rw [hu, List.mem_singleton] at hg
    subst hg
    have hos : groupOrcids (tcRows ([c1bRow].map parseRow) ("TgtA", "ConjB"))
        = [orcidA] := by decide
    rw [hos, List.mem_singleton] at ho
    subst ho
    exact ⟨goodDoc, [csvConfigRow (parseRow goodRow)], by decide, by decide, by decide⟩

set_option maxRecDepth 8000 in
/-- C1 witness: the consistent single-row scenario satisfies every
hypothesis of the amended success theorem, and the validator indeed
returns status 0 with no diagnostics. -/
theorem c1_witness :
    validate_reagent_resources [goodRow] cfg0 [orcidA] ["VendorX"] goodFS "/data"
      = .ok (0, []) :=
  c1_amended [goodRow] cfg0 [orcidA] ["VendorX"] goodFS "/data"
    (by decide)
    (by
      intro m hm p hp
      have hm2 : ([] : List (String × List String)) = m := Option.some.inj hm
      rw [← hm2] at hp
      exact absurd hp (List.not_mem_nil p))
    (by
      intro m hm p hp
      have hm2 : ([] : List (String × List String)) = m := Option.some.inj hm
      rw [← hm2] at hp
      exact absurd hp (List.not_mem_nil p))
    (by decide) (by decide) (by decide) (by decide)
    (by decide)
    (by decide)
    (by decide)
    (by decide)
    (by decide)
    (by
      intro g hg o ho
      have hu : uniqueTC ([goodRow].map parseRow) = [("TgtA", "ConjB")] := by decide
      rw [hu, List.mem_singleton] at hg
      subst hg
      have hos : groupOrcids (tcRows ([goodRow].map parseRow) ("TgtA", "ConjB"))
          = [orcidA] := by decide
      rw [hos, List.mem_singleton] at ho
      subst ho
      exact ⟨goodDoc, [csvConfigRow (parseRow goodRow)], by decide, by decide, by decide⟩)
    (by
      intro g hg t ht
      have hu : uniqueTC ([goodRow].map parseRow) = [("TgtA", "ConjB")] := by decide
      rw [hu, List.mem_singleton] at hg
      subst hg
      have htr : groupTriples (tcRows ([goodRow].map parseRow) ("TgtA", "ConjB"))
          = [] := by decide
      rw [htr] at ht
      exact absurd ht (List.not_mem_nil t))
    (by decide)
    (by decide)
    (by decide)
